import Mathlib

/-!
xgen: the Go code generator (`genGo.go`)

A shallow embedding of the Go emitters of `genGo.go`: the name and type
normalizers `genGoFieldName` / `genGoFieldType`, the six per-kind emitters
`GoSimpleType`, `GoComplexType`, `GoGroup`, `GoAttributeGroup`, `GoElement`,
`GoAttribute`, and the run-scoped state they mutate (the `CodeGenerator`
fields and the package-level counter map `fieldNameCount`).

Go strings are Lean `String`s, `fmt.Sprintf` with `%s` / `%d` verbs is string
concatenation, Go maps are total functions (`StructAST : String → Option String`,
`fieldNameCount : String → Nat` with the Go zero value `0` for a missing key).
-/

namespace Xgen

/-! ## Go standard library pieces -/

/-- Splitting of a character list at every occurrence of `sep`; the result is
never empty (`strings.Split` returns one segment for a string without separator). -/
def splitChars (sep : Char) : List Char → List (List Char)
  | [] => [[]]
  | c :: cs =>
    if c = sep then [] :: splitChars sep cs
    else
      match splitChars sep cs with
      | [] => [[c]]
      | p :: ps => (c :: p) :: ps

/-- Go `strings.Split(s, sep)` for a one-character separator. -/
def stringsSplit (s : String) (sep : Char) : List String :=
  (splitChars sep s.data).map String.mk

/-- Go `strings.ReplaceAll(s, c, "")` for a one-character `c`. -/
def stringsRemove (c : Char) (s : String) : String :=
  String.mk (s.data.filter (fun x => x ≠ c))

/-- Go `strings.NewReplacer("-", "", "_", "").Replace(s)`. -/
def replaceDashUnderscore (s : String) : String :=
  String.mk (s.data.filter (fun x => x ≠ '-' ∧ x ≠ '_'))

/-- Go `strings.Join(fields, sep)`. -/
def stringsJoin (fields : List String) (sep : String) : String :=
  sep.intercalate fields

/-! ## Data model (the proto tree node kinds, with the fields `genGo.go` reads) -/

/-- Node kind `Attribute`. -/
structure Attribute where
  Name : String
  Doc : String
  Type_ : String
  Plural : Bool
  Optional : Bool

/-- Node kind `Element`. -/
structure Element where
  Doc : String
  Name : String
  Type_ : String
  Plural : Bool
  Nillable : Bool

/-- Node kind `Group`; a group holds elements and nested groups. -/
inductive Group where
  | mk (Doc Name Ref : String) (Plural : Bool) (Elements : List Element)
      (Groups : List Group) : Group

/-- Field `Doc` of a group. -/
def Group.Doc : Group → String
  | .mk d _ _ _ _ _ => d

/-- Field `Name` of a group. -/
def Group.Name : Group → String
  | .mk _ n _ _ _ _ => n

/-- Field `Ref` of a group. -/
def Group.Ref : Group → String
  | .mk _ _ r _ _ _ => r

/-- Field `Plural` of a group. -/
def Group.Plural : Group → Bool
  | .mk _ _ _ p _ _ => p

/-- Field `Elements` of a group. -/
def Group.Elements : Group → List Element
  | .mk _ _ _ _ es _ => es

/-- Field `Groups` of a group. -/
def Group.Groups : Group → List Group
  | .mk _ _ _ _ _ gs => gs

/-- Node kind `AttributeGroup`. -/
structure AttributeGroup where
  Doc : String
  Name : String
  Ref : String
  Attributes : List Attribute

/-- Node kind `ComplexType`. -/
structure ComplexType where
  Doc : String
  Name : String
  Base : String
  Elements : List Element
  Attributes : List Attribute
  Groups : List Group
  AttributeGroup : List AttributeGroup

/-- Node kind `SimpleType`; `MemberTypes` is the Go map `map[string]string`,
kept as its list of key/value entries. -/
structure SimpleType where
  Doc : String
  Name : String
  Base : String
  MemberTypes : List (String × String)
  List : Bool
  Union : Bool

/-- One non-nil entry of `ProtoTree []interface{}`. -/
inductive Node where
  | simpleType (v : SimpleType)
  | complexType (v : ComplexType)
  | group (v : Group)
  | attributeGroup (v : AttributeGroup)
  | element (v : Element)
  | attribute (v : Attribute)

/-- The helper functions `genGo.go` calls but does not define. They are
parameters of the embedding; `specHelpers` below is the instance the
specification describes. -/
structure Helpers where
  MakeFirstUpperCase : String → String
  trimNSPrefix : String → String
  getBaseFromSimpleType : String → List (Option Node) → String
  genFieldComment : String → String → String
  plural : Bool → String
  toSortedPairs : List (String × String) → List (String × String)

/-- The generator state: the fields of the Go struct `CodeGenerator` together
with the package-level map `fieldNameCount`, which the emitters mutate through
`genGoFieldName`. -/
structure CodeGenerator where
  Lang : String
  File : String
  Field : String
  Package : String
  ImportTime : Bool
  ImportEncodingXML : Bool
  ProtoTree : List (Option Node)
  StructAST : String → Option String
  fieldNameCount : String → Nat

/-! ## Constants -/

/-- Constant `interfaceType`. -/
def interfaceType : String := " interface\x7b\x7d\n"

/-- Constant `omitEmpty`. -/
def omitEmpty : String := ",omitempty"

/-- Constant `timePackage`. -/
def timePackage : String := "time.Time"

/-- The key set of the map `goBuiltinType`. -/
def goBuiltinType : List String :=
  ["[]bool", "[]byte", "[]interface\x7b\x7d", "[]string", "bool", "byte",
   "complex128", "complex64", "float32", "float64", "int", "int16", "int32",
   "int64", "int8", "interface", "string", "time.Time", "uint", "uint16",
   "uint32", "uint64", "uint8", "xml.Name"]

/-- Function `isGoBuiltInType`. -/
def isGoBuiltInType (typeName : String) : Bool :=
  decide (typeName ∈ goBuiltinType)

/-! ## Name and type normalizers -/

/-- Concatenation of `MakeFirstUpperCase` over the segments of `s` split at
`sep`: the two `for ... range strings.Split` loops of the normalizers. -/
def upperSegments (h : Helpers) (s : String) (sep : Char) : String :=
  (stringsSplit s sep).foldl (fun acc str => acc ++ h.MakeFirstUpperCase str) ""

/-- Lines 128-137 of `genGoFieldName`: the normalized identifier, before the
uniqueness counter is consulted. -/
def normalizeName (h : Helpers) (name : String) : String :=
  replaceDashUnderscore (upperSegments h (upperSegments h name ':') '.')

/-- Function `genGoFieldName`, with the counter map passed in and returned. -/
def genGoFieldName (h : Helpers) (cnt : String → Nat) (name : String) (unique : Bool) :
    String × (String → Nat) :=
  let fieldName := normalizeName h name
  if unique then
    let cnt1 := Function.update cnt fieldName (cnt fieldName + 1)
    let count := cnt1 fieldName
    if count ≠ 1 then (fieldName ++ toString count, cnt1) else (fieldName, cnt1)
  else (fieldName, cnt)

/-- Function `genGoFieldType`. -/
def genGoFieldType (h : Helpers) (name : String) : String :=
  if name ∈ goBuiltinType then name
  else
    let fieldType := upperSegments h name '.'
    let fieldType := stringsRemove '_' (h.MakeFirstUpperCase (stringsRemove '-' fieldType))
    if fieldType ≠ "" then fieldType else "interface\x7b\x7d"

/-! ## The emitters -/

/-- Method `seen`. -/
def seen (gen : CodeGenerator) (name : String) : Bool :=
  (gen.StructAST name).isSome

/-- Assignment `gen.StructAST[name] = body`. -/
def setStructAST (gen : CodeGenerator) (name body : String) : CodeGenerator :=
  { gen with StructAST := Function.update gen.StructAST name (some body) }

/-- The identity member `XMLName xml.Name` carrying the raw schema name. -/
def xmlNameField (name : String) : String :=
  "\tXMLName\txml.Name\t`xml:\"" ++ name ++ "\"`"

/-- The statement `gen.Field += fmt.Sprintf("%stype %s%s", genFieldComment(fieldName, doc),
fieldName, gen.StructAST[name])`, where `body` is the value just stored under `name`. -/
def appendDecl (h : Helpers) (gen : CodeGenerator) (fieldName doc body : String) :
    CodeGenerator :=
  { gen with Field := gen.Field ++ (h.genFieldComment fieldName doc ++ "type " ++ fieldName ++ body) }

/-- The declaration body the emitters `GoGroup`, `GoAttributeGroup` and the
Union branch of `GoSimpleType` build from a `fields` slice. -/
def structBody (fields : List String) : String :=
  if fields.length > 0 then " struct \x7b\n" ++ stringsJoin fields "\n" ++ "\n\x7d\n"
  else interfaceType

/-- Body of the loop over `toSortedPairs(v.MemberTypes)` in `GoSimpleType`. -/
def unionMemberStep (h : Helpers) (gen : CodeGenerator) (fields : List String)
    (member : String × String) : List String :=
  let memberName := member.1
  let memberType :=
    if member.2 = "" then h.getBaseFromSimpleType memberName gen.ProtoTree else member.2
  fields ++ ["\t" ++ (genGoFieldName h gen.fieldNameCount memberName false).1 ++ "\t"
    ++ genGoFieldType h memberType]

/-- Method `GoSimpleType`. -/
def GoSimpleType (h : Helpers) (gen : CodeGenerator) (v : SimpleType) : CodeGenerator :=
  if v.List = true ∧ seen gen v.Name = false then
    let fieldType :=
      genGoFieldType h (h.getBaseFromSimpleType (h.trimNSPrefix v.Base) gen.ProtoTree)
    let gen1 := if fieldType = timePackage then { gen with ImportTime := true } else gen
    let content := " []" ++ genGoFieldType h fieldType ++ "\n"
    let gen2 := setStructAST gen1 v.Name content
    let r := genGoFieldName h gen2.fieldNameCount v.Name true
    appendDecl h { gen2 with fieldNameCount := r.2 } r.1 v.Doc content
  else if v.Union = true ∧ v.MemberTypes.length > 0 then
    if seen gen v.Name then gen
    else
      let r := genGoFieldName h gen.fieldNameCount v.Name true
      let gen1 := { gen with fieldNameCount := r.2 }
      let fieldName := r.1
      let gen2 := if fieldName ≠ v.Name then { gen1 with ImportEncodingXML := true } else gen1
      let fields0 : List String := if fieldName ≠ v.Name then [xmlNameField v.Name] else []
      let fields := (h.toSortedPairs v.MemberTypes).foldl (unionMemberStep h gen2) fields0
      let body := structBody fields
      appendDecl h (setStructAST gen2 v.Name body) fieldName v.Doc body
  else if seen gen v.Name = false then
    let body :=
      " " ++ genGoFieldType h (h.getBaseFromSimpleType (h.trimNSPrefix v.Base) gen.ProtoTree)
        ++ "\n"
    let gen1 := setStructAST gen v.Name body
    let r := genGoFieldName h gen1.fieldNameCount v.Name true
    appendDecl h { gen1 with fieldNameCount := r.2 } r.1 v.Doc body
  else gen

/-- The state the member loops of `GoComplexType` update: the `fields` slice
and the flag `gen.ImportTime`. -/
abbrev LoopState := List String × Bool

/-- Body of the loop over `v.AttributeGroup` in `GoComplexType`. -/
def complexAttrGroupStep (h : Helpers) (gen : CodeGenerator) (st : LoopState)
    (attrGroup : AttributeGroup) : LoopState :=
  let fieldType := h.getBaseFromSimpleType (h.trimNSPrefix attrGroup.Ref) gen.ProtoTree
  let importTime := if fieldType = timePackage then true else st.2
  (st.1 ++ ["\t" ++ (genGoFieldName h gen.fieldNameCount attrGroup.Name false).1 ++ "\t"
    ++ genGoFieldType h fieldType], importTime)

/-- Body of the loop over `v.Attributes` in `GoComplexType`. -/
def complexAttributeStep (h : Helpers) (gen : CodeGenerator) (st : LoopState)
    (attr : Attribute) : LoopState :=
  let optional := if attr.Optional then omitEmpty else ""
  let fieldType :=
    genGoFieldType h (h.getBaseFromSimpleType (h.trimNSPrefix attr.Type_) gen.ProtoTree)
  let importTime := if fieldType = timePackage then true else st.2
  (st.1 ++ ["\t" ++ (genGoFieldName h gen.fieldNameCount attr.Name false).1 ++ "\t"
    ++ fieldType ++ "\t`xml:\"" ++ attr.Name ++ ",attr" ++ optional ++ "\"`"], importTime)

/-- Body of the loop over `v.Groups` in `GoComplexType`. -/
def complexGroupStep (h : Helpers) (gen : CodeGenerator) (st : LoopState)
    (group : Group) : LoopState :=
  (st.1 ++ ["\t" ++ (genGoFieldName h gen.fieldNameCount group.Name false).1 ++ "\t"
    ++ h.plural group.Plural
    ++ genGoFieldType h (h.getBaseFromSimpleType (h.trimNSPrefix group.Ref) gen.ProtoTree)],
   st.2)

/-- Body of the loop over `v.Elements` in `GoComplexType`. -/
def complexElementStep (h : Helpers) (gen : CodeGenerator) (st : LoopState)
    (element : Element) : LoopState :=
  let typePrefix := if element.Nillable then "*" else ""
  let tagSuffix := if element.Nillable then ",omitempty" else ""
  let fieldType :=
    genGoFieldType h (h.getBaseFromSimpleType (h.trimNSPrefix element.Type_) gen.ProtoTree)
  let importTime := if fieldType = timePackage then true else st.2
  (st.1 ++ ["\t" ++ (genGoFieldName h gen.fieldNameCount element.Name false).1 ++ "\t"
    ++ h.plural element.Plural ++ typePrefix ++ fieldType
    ++ "\t`xml:\"" ++ element.Name ++ tagSuffix ++ "\"`"], importTime)

/-- The base handling of `GoComplexType` (the block under `if len(v.Base) > 0`). -/
def complexBaseStep (h : Helpers) (fields : List String) (base : String) : List String :=
  if base.length > 0 then
    if isGoBuiltInType base then
      fields ++ ["\tValue\t" ++ genGoFieldType h base ++ "\t`xml:\",chardata\"`"]
    else
      fields ++ ["\t" ++ ("*" ++ genGoFieldType h base)]
  else fields

/-- The `fields` slice and `ImportTime` flag of `GoComplexType` after the four
member loops, before the base handling; `gen` is the state after the call of
`genGoFieldName` and `fields0` the slice after the identity-member step. -/
def complexMemberLoops (h : Helpers) (gen : CodeGenerator) (fields0 : List String)
    (v : ComplexType) : LoopState :=
  let st0 : LoopState := (fields0, gen.ImportTime)
  let st1 := v.AttributeGroup.foldl (complexAttrGroupStep h gen) st0
  let st2 := v.Attributes.foldl (complexAttributeStep h gen) st1
  let st3 := v.Groups.foldl (complexGroupStep h gen) st2
  v.Elements.foldl (complexElementStep h gen) st3

/-- The declaration body `GoComplexType` builds from its `fields` slice (the
closing brace follows the last member without a line break). -/
def complexBody (fields : List String) : String :=
  if fields.length = 0 then interfaceType
  else " struct \x7b\n" ++ stringsJoin fields "\n" ++ "\x7d\n"

/-- Method `GoComplexType`. -/
def GoComplexType (h : Helpers) (gen : CodeGenerator) (v : ComplexType) : CodeGenerator :=
  if seen gen v.Name then gen
  else
    let r := genGoFieldName h gen.fieldNameCount v.Name true
    let gen1 := { gen with fieldNameCount := r.2 }
    let fieldName := r.1
    let gen2 := if fieldName ≠ v.Name then { gen1 with ImportEncodingXML := true } else gen1
    let fields0 : List String := if fieldName ≠ v.Name then [xmlNameField v.Name] else []
    let st := complexMemberLoops h gen2 fields0 v
    let gen3 := { gen2 with ImportTime := st.2 }
    let fields := complexBaseStep h st.1 v.Base
    let body := complexBody fields
    appendDecl h (setStructAST gen3 v.Name body) fieldName v.Doc body

/-- Body of the loop over `v.Elements` in `GoGroup`. -/
def groupElementStep (h : Helpers) (gen : CodeGenerator) (fields : List String)
    (element : Element) : List String :=
  let plural := if element.Plural then "[]" else ""
  fields ++ ["\t" ++ (genGoFieldName h gen.fieldNameCount element.Name false).1 ++ "\t"
    ++ plural
    ++ genGoFieldType h (h.getBaseFromSimpleType (h.trimNSPrefix element.Type_) gen.ProtoTree)]

/-- Body of the loop over `v.Groups` in `GoGroup`. -/
def groupGroupStep (h : Helpers) (gen : CodeGenerator) (fields : List String)
    (group : Group) : List String :=
  let plural := if group.Plural then "[]" else ""
  fields ++ ["\t" ++ (genGoFieldName h gen.fieldNameCount group.Name false).1 ++ "\t"
    ++ plural
    ++ genGoFieldType h (h.getBaseFromSimpleType (h.trimNSPrefix group.Ref) gen.ProtoTree)]

/-- The `fields` slice of `GoGroup` after its two member loops; `fields0` is the
slice after the identity-member step. -/
def groupMemberLoops (h : Helpers) (gen : CodeGenerator) (fields0 : List String)
    (v : Group) : List String :=
  let fields1 := v.Elements.foldl (groupElementStep h gen) fields0
  v.Groups.foldl (groupGroupStep h gen) fields1

/-- Method `GoGroup`. -/
def GoGroup (h : Helpers) (gen : CodeGenerator) (v : Group) : CodeGenerator :=
  if seen gen v.Name then gen
  else
    let r := genGoFieldName h gen.fieldNameCount v.Name true
    let gen1 := { gen with fieldNameCount := r.2 }
    let fieldName := r.1
    let gen2 := if fieldName ≠ v.Name then { gen1 with ImportEncodingXML := true } else gen1
    let fields0 : List String := if fieldName ≠ v.Name then [xmlNameField v.Name] else []
    let fields := groupMemberLoops h gen2 fields0 v
    let body := structBody fields
    appendDecl h (setStructAST gen2 v.Name body) fieldName v.Doc body

/-- Body of the loop over `v.Attributes` in `GoAttributeGroup`. -/
def attrGroupAttributeStep (h : Helpers) (gen : CodeGenerator) (fields : List String)
    (attr : Attribute) : List String :=
  let optional := if attr.Optional then omitEmpty else ""
  fields ++ ["\t" ++ (genGoFieldName h gen.fieldNameCount attr.Name false).1 ++ "\t"
    ++ genGoFieldType h (h.getBaseFromSimpleType (h.trimNSPrefix attr.Type_) gen.ProtoTree)
    ++ "\t`xml:\"" ++ attr.Name ++ ",attr" ++ optional ++ "\"`"]

/-- Method `GoAttributeGroup`. -/
def GoAttributeGroup (h : Helpers) (gen : CodeGenerator) (v : AttributeGroup) :
    CodeGenerator :=
  if seen gen v.Name then gen
  else
    let r := genGoFieldName h gen.fieldNameCount v.Name true
    let gen1 := { gen with fieldNameCount := r.2 }
    let fieldName := r.1
    let gen2 := if fieldName ≠ v.Name then { gen1 with ImportEncodingXML := true } else gen1
    let fields0 : List String := if fieldName ≠ v.Name then [xmlNameField v.Name] else []
    let fields := v.Attributes.foldl (attrGroupAttributeStep h gen2) fields0
    let body := structBody fields
    appendDecl h (setStructAST gen2 v.Name body) fieldName v.Doc body

/-- Method `GoElement`. -/
def GoElement (h : Helpers) (gen : CodeGenerator) (v : Element) : CodeGenerator :=
  if seen gen v.Name then gen
  else if v.Name = v.Type_ then gen
  else
    let body := "\t" ++ h.plural v.Plural
      ++ genGoFieldType h (h.getBaseFromSimpleType (h.trimNSPrefix v.Type_) gen.ProtoTree)
      ++ "\n"
    let gen1 := setStructAST gen v.Name body
    let r := genGoFieldName h gen1.fieldNameCount v.Name false
    appendDecl h { gen1 with fieldNameCount := r.2 } r.1 v.Doc body

/-- Method `GoAttribute`. -/
def GoAttribute (h : Helpers) (gen : CodeGenerator) (v : Attribute) : CodeGenerator :=
  if seen gen v.Name then gen
  else
    let body := "\t" ++ h.plural v.Plural
      ++ genGoFieldType h (h.getBaseFromSimpleType (h.trimNSPrefix v.Type_) gen.ProtoTree)
      ++ "\n"
    let gen1 := setStructAST gen v.Name body
    let r := genGoFieldName h gen1.fieldNameCount v.Name true
    appendDecl h { gen1 with fieldNameCount := r.2 } r.1 v.Doc body

/-! ## Sequences of emitter calls -/

/-- One call of an emitter on a node. -/
inductive Call where
  | GoSimpleType (v : SimpleType)
  | GoComplexType (v : ComplexType)
  | GoGroup (v : Group)
  | GoAttributeGroup (v : AttributeGroup)
  | GoElement (v : Element)
  | GoAttribute (v : Attribute)

/-- The raw name `v.Name` of the node a call is made on. -/
def Call.name : Call → String
  | .GoSimpleType v => v.Name
  | .GoComplexType v => v.Name
  | .GoGroup v => v.Name
  | .GoAttributeGroup v => v.Name
  | .GoElement v => v.Name
  | .GoAttribute v => v.Name

/-- Performing one emitter call. -/
def Call.run (h : Helpers) (gen : CodeGenerator) : Call → CodeGenerator
  | .GoSimpleType v => Xgen.GoSimpleType h gen v
  | .GoComplexType v => Xgen.GoComplexType h gen v
  | .GoGroup v => Xgen.GoGroup h gen v
  | .GoAttributeGroup v => Xgen.GoAttributeGroup h gen v
  | .GoElement v => Xgen.GoElement h gen v
  | .GoAttribute v => Xgen.GoAttribute h gen v

/-- Performing a finite sequence of emitter calls, first call first. -/
def runCalls (h : Helpers) (gen : CodeGenerator) (cs : List Call) : CodeGenerator :=
  cs.foldl (Call.run h) gen

/-- A sequence of calls of `genGoFieldName` (argument `name`, argument `unique`)
made one after the other on the counter map `cnt`: the names returned, in call
order, and the final counter map. -/
def genGoFieldNames (h : Helpers) (cnt : String → Nat) :
    List (String × Bool) → List String × (String → Nat)
  | [] => ([], cnt)
  | c :: cs =>
    let r := genGoFieldName h cnt c.1 c.2
    let rest := genGoFieldNames h r.2 cs
    (r.1 :: rest.1, rest.2)

/-- The counter map `make(map[string]int)` that `GenGo` installs at its start. -/
def emptyCount : String → Nat := fun _ => 0

/-- The doc string `v.Doc` of the node a call is made on. -/
def Call.doc : Call → String
  | .GoSimpleType v => v.Doc
  | .GoComplexType v => v.Doc
  | .GoGroup v => v.Doc
  | .GoAttributeGroup v => v.Doc
  | .GoElement v => v.Doc
  | .GoAttribute v => v.Doc

/-- The declaration name an emitter chooses for its node on the state `gen`:
`genGoFieldName(v.Name, false)` in `GoElement`, `genGoFieldName(v.Name, true)`
in the five other emitters. -/
def Call.declName (h : Helpers) (gen : CodeGenerator) : Call → String
  | .GoElement v => (genGoFieldName h gen.fieldNameCount v.Name false).1
  | c => (genGoFieldName h gen.fieldNameCount c.name true).1

/-! ## The loop of `GenGo` -/

/-- The method name `GenGo` computes for an entry,
`fmt.Sprintf("Go%s", reflect.TypeOf(ele).String()[6:])`: `Go` followed by the
name of the node type. -/
def funcName : Node → String
  | .simpleType _ => "GoSimpleType"
  | .complexType _ => "GoComplexType"
  | .group _ => "GoGroup"
  | .attributeGroup _ => "GoAttributeGroup"
  | .element _ => "GoElement"
  | .attribute _ => "GoAttribute"

/-- Modelled from the spec: `callFuncByName` is not in the sources at hand; the
engine dispatches "each [entry] to its kind's emitter", that is, the method
named `funcName` is called on the node. -/
def callFuncByName (h : Helpers) (gen : CodeGenerator) : Node → CodeGenerator
  | .simpleType v => GoSimpleType h gen v
  | .complexType v => GoComplexType h gen v
  | .group v => GoGroup h gen v
  | .attributeGroup v => GoAttributeGroup h gen v
  | .element v => GoElement h gen v
  | .attribute v => GoAttribute h gen v

/-- One iteration of the loop of `GenGo` over `gen.ProtoTree`: a nil entry is
skipped, and the emitter is called unless its name is `GoSimpleType`. -/
def GenGoStep (h : Helpers) (gen : CodeGenerator) (ele : Option Node) : CodeGenerator :=
  match ele with
  | none => gen
  | some node => if funcName node ≠ "GoSimpleType" then callFuncByName h gen node else gen

/-- Lines 69-82 of `GenGo`: the counters are reset and the entries of the proto
tree are visited in order. The result is the state from which the output file
is assembled. -/
def GenGoEmit (h : Helpers) (gen : CodeGenerator) : CodeGenerator :=
  gen.ProtoTree.foldl (GenGoStep h) { gen with fieldNameCount := emptyCount }

/-- Lines 91-102 of `GenGo`: the import block of the output file. -/
def importPackage (gen : CodeGenerator) : String :=
  let packages :=
    (if gen.ImportTime then "\t\"time\"\n" else "")
      ++ (if gen.ImportEncodingXML then "\t\"encoding/xml\"\n" else "")
  if packages ≠ "" then "import (\n" ++ packages ++ ")" else ""

/-- The emitter call `GenGo` makes for an entry of the proto tree, if any: none
for a nil entry and none for a SimpleType. -/
def entryCall : Option Node → Option Call
  | none => none
  | some (.simpleType _) => none
  | some (.complexType v) => some (Call.GoComplexType v)
  | some (.group v) => some (Call.GoGroup v)
  | some (.attributeGroup v) => some (Call.GoAttributeGroup v)
  | some (.element v) => some (Call.GoElement v)
  | some (.attribute v) => some (Call.GoAttribute v)

/-- The emitter call that visiting an entry with the emitter of its kind would
make: none for a nil entry only. -/
def kindCall : Option Node → Option Call
  | none => none
  | some (.simpleType v) => some (Call.GoSimpleType v)
  | some (.complexType v) => some (Call.GoComplexType v)
  | some (.group v) => some (Call.GoGroup v)
  | some (.attributeGroup v) => some (Call.GoAttributeGroup v)
  | some (.element v) => some (Call.GoElement v)
  | some (.attribute v) => some (Call.GoAttribute v)

/-! ## The helpers as the specification describes them -/

/-- Modelled from the spec: `MakeFirstUpperCase` is not in the sources at hand;
the normalizer "upper-case[s] the first letter of each segment". -/
def specMakeFirstUpperCase (s : String) : String :=
  match s.data with
  | [] => ""
  | c :: cs => String.mk (c.toUpper :: cs)

/-- Modelled from the spec: `trimNSPrefix` is not in the sources at hand; the
resolver "strips any namespace prefix" from a type name, the prefix being what
precedes the namespace separator `:`. -/
def specTrimNSPrefix (s : String) : String :=
  match splitChars ':' s.data with
  | _ :: p :: ps => String.mk (List.intercalate [':'] (p :: ps))
  | _ => s

/-- Modelled from the spec: `getBaseFromSimpleType` is not in the sources at
hand; the resolver "scans the ProtoTree's SimpleType entries in tree order for
the first whose Name matches", answers that entry's `Base`, and returns the
name unchanged when no SimpleType matches. -/
def specGetBaseFromSimpleType (name : String) : List (Option Node) → String
  | [] => name
  | some (Node.simpleType v) :: rest =>
    if v.Name = name then v.Base else specGetBaseFromSimpleType name rest
  | _ :: rest => specGetBaseFromSimpleType name rest

/-- Modelled from the spec: `genFieldComment` is not in the sources at hand and
the spec leaves the comment text open; this follows the generated file
`test/go/base64.xsd.go`, whose declarations are preceded by `// Name ...`. -/
def specGenFieldComment (name doc : String) : String :=
  if doc = "" then "\n// " ++ name ++ " ...\n" else "\n// " ++ name ++ " is " ++ doc ++ "\n"

/-- Modelled from the spec: `plural` is not in the sources at hand; a member is
"sequence-typed if Plural", and `GoGroup` spells the same choice out inline
(`if element.Plural \x7b plural = "[]" \x7d`). -/
def specPlural (b : Bool) : String :=
  if b then "[]" else ""

/-- Insertion of an entry into a list of entries ordered by key. -/
def insertPair (p : String × String) : List (String × String) → List (String × String)
  | [] => [p]
  | q :: qs => if p.1.data < q.1.data then p :: q :: qs else q :: insertPair p qs

/-- Modelled from the spec: `toSortedPairs` is not in the sources at hand; it
turns the `MemberTypes` map into its entries in key order, so that a Union has
"one member per entry in MemberTypes" in a deterministic order. -/
def specToSortedPairs (m : List (String × String)) : List (String × String) :=
  m.foldr insertPair []

/-- Modelled from the spec: the helper functions that `genGo.go` calls and that
are defined elsewhere in the package, as the specification describes them. -/
def specHelpers : Helpers where
  MakeFirstUpperCase := specMakeFirstUpperCase
  trimNSPrefix := specTrimNSPrefix
  getBaseFromSimpleType := specGetBaseFromSimpleType
  genFieldComment := specGenFieldComment
  plural := specPlural
  toSortedPairs := specToSortedPairs

/-- A generator as a caller hands it to `GenGo` for the proto tree `tree`:
nothing emitted yet, both import flags false, empty `StructAST`, and the
counter map that `GenGo` makes. -/
def freshGen (tree : List (Option Node)) : CodeGenerator where
  Lang := "Go"
  File := ""
  Field := ""
  Package := ""
  ImportTime := false
  ImportEncodingXML := false
  ProtoTree := tree
  StructAST := fun _ => none
  fieldNameCount := emptyCount

/-! ## Member lines, as formulas

The text of each member line the loops append, written as a function of the
member alone. The theorems below show the loops produce exactly these. -/

/-- The resolved, normalized type of a reference `ty`:
`genGoFieldType(getBaseFromSimpleType(trimNSPrefix(ty), gen.ProtoTree))`. -/
def resolvedType (h : Helpers) (tree : List (Option Node)) (ty : String) : String :=
  genGoFieldType h (h.getBaseFromSimpleType (h.trimNSPrefix ty) tree)

/-- The identity member, present when the declaration name differs from the raw name. -/
def identityMember (declName name : String) : List String :=
  if declName ≠ name then [xmlNameField name] else []

/-- Member line of an attribute-group reference in a ComplexType. -/
def attrGroupRefLine (h : Helpers) (tree : List (Option Node)) (ag : AttributeGroup) : String :=
  "\t" ++ normalizeName h ag.Name ++ "\t"
    ++ genGoFieldType h (h.getBaseFromSimpleType (h.trimNSPrefix ag.Ref) tree)

/-- Member line of an attribute in a ComplexType or an AttributeGroup. -/
def attributeLine (h : Helpers) (tree : List (Option Node)) (a : Attribute) : String :=
  "\t" ++ normalizeName h a.Name ++ "\t" ++ resolvedType h tree a.Type_
    ++ "\t`xml:\"" ++ a.Name ++ ",attr" ++ (if a.Optional then omitEmpty else "") ++ "\"`"

/-- Member line of a group reference in a ComplexType. -/
def complexGroupLine (h : Helpers) (tree : List (Option Node)) (g : Group) : String :=
  "\t" ++ normalizeName h g.Name ++ "\t" ++ h.plural g.Plural ++ resolvedType h tree g.Ref

/-- Member line of an element in a ComplexType. -/
def complexElementLine (h : Helpers) (tree : List (Option Node)) (e : Element) : String :=
  "\t" ++ normalizeName h e.Name ++ "\t" ++ h.plural e.Plural
    ++ (if e.Nillable then "*" else "") ++ resolvedType h tree e.Type_
    ++ "\t`xml:\"" ++ e.Name ++ (if e.Nillable then ",omitempty" else "") ++ "\"`"

/-- Member line of an element in a Group. -/
def groupElementLine (h : Helpers) (tree : List (Option Node)) (e : Element) : String :=
  "\t" ++ normalizeName h e.Name ++ "\t" ++ (if e.Plural then "[]" else "")
    ++ resolvedType h tree e.Type_

/-- Member line of a group reference in a Group. -/
def groupGroupLine (h : Helpers) (tree : List (Option Node)) (g : Group) : String :=
  "\t" ++ normalizeName h g.Name ++ "\t" ++ (if g.Plural then "[]" else "")
    ++ resolvedType h tree g.Ref

/-- The member that the base handling of `GoComplexType` adds, if any. -/
def baseMember (h : Helpers) (base : String) : List String :=
  if base = "" then []
  else if base ∈ goBuiltinType then ["\tValue\t" ++ base ++ "\t`xml:\",chardata\"`"]
  else ["\t*" ++ genGoFieldType h base]

/-- The members of a ComplexType that do not come from its `Base`: identity
member, attribute-group references, attributes, group references, elements. -/
def complexMembers (h : Helpers) (tree : List (Option Node)) (declName : String)
    (v : ComplexType) : List String :=
  identityMember declName v.Name ++ v.AttributeGroup.map (attrGroupRefLine h tree)
    ++ v.Attributes.map (attributeLine h tree) ++ v.Groups.map (complexGroupLine h tree)
    ++ v.Elements.map (complexElementLine h tree)

/-- The members of a Group: identity member, elements, group references. -/
def groupMembers (h : Helpers) (tree : List (Option Node)) (declName : String)
    (v : Group) : List String :=
  identityMember declName v.Name ++ v.Elements.map (groupElementLine h tree)
    ++ v.Groups.map (groupGroupLine h tree)

/-- The members of an AttributeGroup: identity member, attributes. -/
def attributeGroupMembers (h : Helpers) (tree : List (Option Node)) (declName : String)
    (v : AttributeGroup) : List String :=
  identityMember declName v.Name ++ v.Attributes.map (attributeLine h tree)

/-- Member line of one entry of the `MemberTypes` of a Union SimpleType. -/
def unionMemberLine (h : Helpers) (tree : List (Option Node)) (member : String × String) :
    String :=
  "\t" ++ normalizeName h member.1 ++ "\t"
    ++ genGoFieldType h
        (if member.2 = "" then h.getBaseFromSimpleType member.1 tree else member.2)

/-- The members of a Union SimpleType: identity member, one member per entry of
`MemberTypes` in the order of `toSortedPairs`. -/
def unionMembers (h : Helpers) (tree : List (Option Node)) (declName : String)
    (v : SimpleType) : List String :=
  identityMember declName v.Name ++ (h.toSortedPairs v.MemberTypes).map (unionMemberLine h tree)

/-! ## The normalizers, step by step -/

/-- Lines 155-161 of `genGoFieldType`: the normalization applied to a name that
is not a Go builtin, before the fallback to `interface{}`. -/
def normalizeType (h : Helpers) (name : String) : String :=
  stringsRemove '_' (h.MakeFirstUpperCase (stringsRemove '-' (upperSegments h name '.')))

/-- The four characters the name normalizer removes: namespace separator, dot,
dash and underscore. -/
def isStripped (c : Char) : Prop :=
  c = ':' ∨ c = '.' ∨ c = '-' ∨ c = '_'

/-- The helper `MakeFirstUpperCase` only changes the case of letters: a
namespace separator, dot, dash or underscore in its result was in its argument. -/
def UpperCaseAddsNoStripped (h : Helpers) : Prop :=
  ∀ (s : String) (c : Char), c ∈ (h.MakeFirstUpperCase s).data → isStripped c → c ∈ s.data

/-! ## The specification's wording of cardinality -/

/-- The helper `plural` behaves as the specification says: `[]` for a plural
member, nothing otherwise. -/
def PluralSpec (h : Helpers) : Prop :=
  ∀ b, h.plural b = if b then "[]" else ""

/-- Sequence typing as the specification words it: `[]` in front of the type
when the member is plural, the type alone otherwise. -/
def seqType (isPlural : Bool) (ty : String) : String :=
  if isPlural then "[]" ++ ty else ty

/-- A member line as the specification words it: the normalized name, the
sequence-typed or scalar type, and the tag text (possibly empty). -/
def seqMemberLine (h : Helpers) (name : String) (isPlural : Bool) (ty tag : String) : String :=
  "\t" ++ normalizeName h name ++ "\t" ++ seqType isPlural ty ++ tag

/-- The xml tag of an element member of a ComplexType. -/
def elementTag (e : Element) : String :=
  "\t`xml:\"" ++ e.Name ++ (if e.Nillable then ",omitempty" else "") ++ "\"`"

/-- The type of an element member of a ComplexType before cardinality is
applied: the resolved type, behind the pointer marker when the element is nillable. -/
def elementType (h : Helpers) (tree : List (Option Node)) (e : Element) : String :=
  (if e.Nillable then "*" else "") ++ resolvedType h tree e.Type_

/-! ## Sample inputs -/

/-- An attribute node named `a`, used to exercise the emitters. -/
def sampleAttribute : Attribute :=
  { Name := "a", Doc := "", Type_ := "string", Plural := false, Optional := false }

/-- An element named `a_b` of type `string`. -/
def sampleElementAB : Element :=
  { Doc := "", Name := "a_b", Type_ := "string", Plural := false, Nillable := false }

/-- An element named `ab` of type `string`. -/
def sampleElementAb : Element :=
  { Doc := "", Name := "ab", Type_ := "string", Plural := false, Nillable := false }

/-- An attribute named `a_b` of type `string`. -/
def sampleAttributeAB : Attribute :=
  { Name := "a_b", Doc := "", Type_ := "string", Plural := false, Optional := false }

/-- An attribute named `ab` of type `string`. -/
def sampleAttributeAb : Attribute :=
  { Name := "ab", Doc := "", Type_ := "string", Plural := false, Optional := false }

/-- A plural attribute named `a` of type `string`. -/
def samplePluralAttribute : Attribute :=
  { Name := "a", Doc := "", Type_ := "string", Plural := true, Optional := false }

/-- A ComplexType named `T` whose only member is the plural attribute `a`. -/
def sampleAttrComplexType : ComplexType :=
  { Doc := "", Name := "T", Base := "", Elements := [], Attributes := [samplePluralAttribute],
    Groups := [], AttributeGroup := [] }

/-- An AttributeGroup named `T` whose only member is the plural attribute `a`. -/
def sampleAttributeGroup : AttributeGroup :=
  { Doc := "", Name := "T", Ref := "", Attributes := [samplePluralAttribute] }

/-- A Group named `T` whose only member is the element `a_b`. -/
def sampleElementGroup : Group :=
  Group.mk "" "T" "" false [sampleElementAB] []

/-- A ComplexType named `T` whose only member is the element `a_b`. -/
def sampleElementComplexType : ComplexType :=
  { Doc := "", Name := "T", Base := "", Elements := [sampleElementAB], Attributes := [],
    Groups := [], AttributeGroup := [] }

/-- A plural, nillable element named `item` of type `string`. -/
def sampleNillableElement : Element :=
  { Doc := "", Name := "item", Type_ := "string", Plural := true, Nillable := true }

/-- A ComplexType named `T` with base `string`, a plural group reference and a
plural nillable element. -/
def sampleComplexType : ComplexType :=
  { Doc := "", Name := "T", Base := "string", Elements := [sampleNillableElement],
    Attributes := [], Groups := [Group.mk "" "g" "G" true [] []], AttributeGroup := [] }

/-- A ComplexType named `Empty` with no members and no base. -/
def sampleEmptyComplexType : ComplexType :=
  { Doc := "", Name := "Empty", Base := "", Elements := [], Attributes := [], Groups := [],
    AttributeGroup := [] }

/-- A Union SimpleType named `u` with the single member `m` of type `string`. -/
def sampleUnion : SimpleType :=
  { Doc := "", Name := "u", Base := "", MemberTypes := [("m", "string")], List := false,
    Union := true }

/-- A List SimpleType named `L` with an empty `Base`. -/
def sampleListType : SimpleType :=
  { Doc := "", Name := "L", Base := "", MemberTypes := [], List := true, Union := false }

/-- A List SimpleType named `L2` whose `Base` is `_item`. -/
def sampleListType2 : SimpleType :=
  { Doc := "", Name := "L2", Base := "_item", MemberTypes := [], List := true, Union := false }

/-- An attribute named `when` of type `time.Time`. -/
def sampleTimeAttribute : Attribute :=
  { Name := "when", Doc := "", Type_ := "time.Time", Plural := false, Optional := false }

/-- An AttributeGroup named `G` whose only member is the attribute `when`. -/
def sampleTimeAttributeGroup : AttributeGroup :=
  { Doc := "", Name := "G", Ref := "", Attributes := [sampleTimeAttribute] }

/-- A ComplexType named `C` whose only member is the attribute `when`. -/
def sampleTimeComplexType : ComplexType :=
  { Doc := "", Name := "C", Base := "", Elements := [], Attributes := [sampleTimeAttribute],
    Groups := [], AttributeGroup := [] }

/-- A plain-alias SimpleType named `s` with base `string`. -/
def sampleAlias : SimpleType :=
  { Doc := "", Name := "s", Base := "string", MemberTypes := [], List := false, Union := false }

/-- A proto tree whose only entry is the SimpleType `s`. -/
def sampleAliasTree : List (Option Node) :=
  [some (Node.simpleType sampleAlias)]

/-- A plural element named `items` of type `string`. -/
def samplePluralElement : Element :=
  { Doc := "", Name := "items", Type_ := "string", Plural := true, Nillable := false }

/-! ## Emitter calls on names already in the store -/

theorem run_of_seen (h : Helpers) (gen : CodeGenerator) (c : Call)
    (hs : seen gen c.name = true) : c.run h gen = gen := by
  cases c <;> simp only [Call.name] at hs <;>
    simp [Call.run, GoSimpleType, GoComplexType, GoGroup, GoAttributeGroup, GoElement,
      GoAttribute, hs]

theorem run_cases (h : Helpers) (gen : CodeGenerator) (c : Call) :
    c.run h gen = gen ∨
      (seen gen c.name = false ∧ ∃ body,
        (c.run h gen).StructAST = Function.update gen.StructAST c.name (some body)) := by
  by_cases hs : seen gen c.name = true
  · exact Or.inl (run_of_seen h gen c hs)
  · simp only [Bool.not_eq_true] at hs
    cases c <;> simp only [Call.name] at hs <;>
      simp only [Call.run, Call.name, GoSimpleType, GoComplexType, GoGroup, GoAttributeGroup,
        GoElement, GoAttribute, hs] <;>
      split_ifs <;>
      first
        | exact Or.inl rfl
        | exact Or.inr ⟨trivial, _, rfl⟩

theorem seen_iff (gen : CodeGenerator) (name : String) :
    seen gen name = true ↔ ∃ body, gen.StructAST name = some body := by
  unfold seen
  exact Option.isSome_iff_exists

theorem run_keeps_entry (h : Helpers) (gen : CodeGenerator) (c : Call) (name body : String)
    (hb : gen.StructAST name = some body) : (c.run h gen).StructAST name = some body := by
  rcases run_cases h gen c with hr | ⟨hs, b, hu⟩
  · rw [hr]; exact hb
  · rw [hu]
    have hne : name ≠ c.name := by
      rintro rfl
      have : seen gen c.name = true := (seen_iff gen c.name).2 ⟨body, hb⟩
      rw [hs] at this
      exact Bool.noConfusion this
    rw [Function.update_noteq hne]
    exact hb

theorem runCalls_append (h : Helpers) (gen : CodeGenerator) (cs ds : List Call) :
    runCalls h gen (cs ++ ds) = runCalls h (runCalls h gen cs) ds := by
  simp [runCalls, List.foldl_append]

theorem runCalls_cons (h : Helpers) (gen : CodeGenerator) (c : Call) (cs : List Call) :
    runCalls h gen (c :: cs) = runCalls h (c.run h gen) cs := rfl

theorem runCalls_keeps_entry (h : Helpers) (cs : List Call) (gen : CodeGenerator)
    (name body : String) (hb : gen.StructAST name = some body) :
    (runCalls h gen cs).StructAST name = some body := by
  induction cs generalizing gen with
  | nil => exact hb
  | cons c cs ih =>
    rw [runCalls_cons]
    exact ih _ (run_keeps_entry h gen c name body hb)

theorem run_emits_entry (h : Helpers) (gen : CodeGenerator) (c : Call)
    (hf : (c.run h gen).Field ≠ gen.Field) : seen (c.run h gen) c.name = true := by
  rcases run_cases h gen c with hr | ⟨_, b, hu⟩
  · rw [hr] at hf; exact absurd rfl hf
  · rw [seen_iff]
    exact ⟨b, by rw [hu, Function.update_same]⟩

theorem first_write (h : Helpers) (gen : CodeGenerator)
    (hempty : ∀ name, gen.StructAST name = none) (cs : List Call) (name body : String)
    (hb : (runCalls h gen cs).StructAST name = some body) :
    ∃ pre c post, cs = pre ++ c :: post ∧ c.name = name ∧
      (runCalls h gen pre).StructAST name = none ∧
      (c.run h (runCalls h gen pre)).StructAST name = some body := by
  induction cs using List.reverseRecOn with
  | nil =>
    rw [show runCalls h gen [] = gen from rfl, hempty] at hb
    exact Option.noConfusion hb
  | append_singleton cs c ih =>
    rw [runCalls_append, show runCalls h (runCalls h gen cs) [c] = c.run h (runCalls h gen cs)
      from rfl] at hb
    rcases run_cases h (runCalls h gen cs) c with hr | ⟨hs, b, hu⟩
    · rw [hr] at hb
      obtain ⟨pre, c1, post, hcs, hn, h1, h2⟩ := ih hb
      exact ⟨pre, c1, post ++ [c], by rw [hcs]; simp, hn, h1, h2⟩
    · by_cases hn : name = c.name
      · refine ⟨cs, c, [], rfl, hn.symm, ?_, hb⟩
        rw [hn]
        cases hst : (runCalls h gen cs).StructAST c.name with
        | none => rfl
        | some b0 =>
          have : seen (runCalls h gen cs) c.name = true := (seen_iff _ _).2 ⟨b0, hst⟩
          rw [hs] at this
          exact Bool.noConfusion this
      · rw [hu, Function.update_noteq hn] at hb
        obtain ⟨pre, c1, post, hcs, hn1, h1, h2⟩ := ih hb
        exact ⟨pre, c1, post ++ [c], by rw [hcs]; simp, hn1, h1, h2⟩

/-- C1: an emitter called on a node whose name is already a key of `StructAST`
returns the generator state it was given: `StructAST`, `Field`, both import
flags and the counters `fieldNameCount` are all as before the call. -/
theorem emitter_on_seen_name_is_noop (h : Helpers) (gen : CodeGenerator) (c : Call)
    (hs : (gen.StructAST c.name).isSome = true) : c.run h gen = gen :=
  run_of_seen h gen c hs

/-- C2: in a sequence of emitter calls on a generator whose `StructAST` starts
empty, of two calls on nodes of the same raw name at most the earlier one
appends to `Field`; an entry of `StructAST`, once written, is the same after all
later calls; and every entry present at the end was written by a call on a node
of that name at a moment when the name was not yet a key. -/
theorem emitted_at_most_once (h : Helpers) (gen : CodeGenerator)
    (hempty : ∀ name, gen.StructAST name = none) (cs : List Call) :
    (∀ pre mid post c1 c2, cs = pre ++ c1 :: (mid ++ c2 :: post) → c1.name = c2.name →
      (c1.run h (runCalls h gen pre)).Field ≠ (runCalls h gen pre).Field →
      (c2.run h (runCalls h gen (pre ++ c1 :: mid))).Field
        = (runCalls h gen (pre ++ c1 :: mid)).Field) ∧
    (∀ pre post name body, cs = pre ++ post →
      (runCalls h gen pre).StructAST name = some body →
      (runCalls h gen cs).StructAST name = some body) ∧
    (∀ name body, (runCalls h gen cs).StructAST name = some body →
      ∃ pre c post, cs = pre ++ c :: post ∧ c.name = name ∧
        (runCalls h gen pre).StructAST name = none ∧
        (c.run h (runCalls h gen pre)).StructAST name = some body) := by
  refine ⟨?_, ?_, ?_⟩
  · intro pre mid post c1 c2 _ hname hf
    have h1 := run_emits_entry h _ c1 hf
    obtain ⟨b, hb⟩ := (seen_iff _ _).1 h1
    have h2 : (runCalls h gen (pre ++ c1 :: mid)).StructAST c1.name = some b := by
      rw [runCalls_append, runCalls_cons]
      exact runCalls_keeps_entry h mid _ _ _ hb
    have h3 : seen (runCalls h gen (pre ++ c1 :: mid)) c2.name = true := by
      rw [← hname]
      exact (seen_iff _ _).2 ⟨b, h2⟩
    rw [run_of_seen h _ c2 h3]
  · intro pre post name body hcs hb
    rw [hcs, runCalls_append]
    exact runCalls_keeps_entry h post _ _ _ hb
  · intro name body hb
    exact first_write h gen hempty cs name body hb

/-- Witness of C1: `GoAttribute` on a node named `a` when `a` is already a key. -/
theorem emitter_on_seen_name_is_noop_witness :
    ((setStructAST (freshGen []) "a" " string\n").StructAST
        (Call.GoAttribute sampleAttribute).name).isSome = true ∧
      (Call.GoAttribute sampleAttribute).run specHelpers
          (setStructAST (freshGen []) "a" " string\n")
        = setStructAST (freshGen []) "a" " string\n" :=
  ⟨by decide, emitter_on_seen_name_is_noop specHelpers _ (Call.GoAttribute sampleAttribute)
    (by decide)⟩

/-- Witness of C2: on a fresh generator the second of two `GoAttribute` calls on
the same node appends nothing to `Field`, the first one having appended. -/
theorem emitted_at_most_once_witness :
    (∀ name, (freshGen []).StructAST name = none) ∧
      (runCalls specHelpers (freshGen []) [Call.GoAttribute sampleAttribute]).Field
        ≠ (freshGen []).Field ∧
      ((Call.GoAttribute sampleAttribute).run specHelpers
          (runCalls specHelpers (freshGen []) [Call.GoAttribute sampleAttribute])).Field
        = (runCalls specHelpers (freshGen []) [Call.GoAttribute sampleAttribute]).Field :=
  ⟨fun _ => rfl, by decide,
    (emitted_at_most_once specHelpers (freshGen []) (fun _ => rfl)
      [Call.GoAttribute sampleAttribute, Call.GoAttribute sampleAttribute]).1
      [] [] [] (Call.GoAttribute sampleAttribute) (Call.GoAttribute sampleAttribute) rfl rfl
      (by decide)⟩

/-! ## The uniqueness counter of `genGoFieldName` -/

theorem genGoFieldName_count (h : Helpers) (cnt : String → Nat) (name : String) (u : Bool)
    (N : String) :
    (genGoFieldName h cnt name u).2 N
      = cnt N + (if u = true ∧ normalizeName h name = N then 1 else 0) := by
  cases u
  · simp [genGoFieldName]
  · by_cases hN : normalizeName h name = N
    · subst hN
      simp only [genGoFieldName, if_true, and_self]
      split_ifs <;> simp
    · have hN2 : N ≠ normalizeName h name := fun e => hN e.symm
      simp only [genGoFieldName, if_true, hN, and_false, if_false, Nat.add_zero]
      split_ifs <;> simp [Function.update_noteq hN2]

theorem genGoFieldName_unique_name (h : Helpers) (cnt : String → Nat) (name : String) :
    (genGoFieldName h cnt name true).1
      = if cnt (normalizeName h name) + 1 = 1 then normalizeName h name
        else normalizeName h name ++ toString (cnt (normalizeName h name) + 1) := by
  simp only [genGoFieldName, if_true, Function.update_same]
  split_ifs <;> simp_all

theorem genGoFieldName_plain (h : Helpers) (cnt : String → Nat) (name : String) :
    genGoFieldName h cnt name false = (normalizeName h name, cnt) := by
  simp [genGoFieldName]

theorem genGoFieldNames_length (h : Helpers) (cs : List (String × Bool)) (cnt : String → Nat) :
    (genGoFieldNames h cnt cs).1.length = cs.length := by
  induction cs generalizing cnt with
  | nil => rfl
  | cons c cs ih => simp [genGoFieldNames, ih]

theorem genGoFieldNames_append (h : Helpers) (cs ds : List (String × Bool))
    (cnt : String → Nat) :
    genGoFieldNames h cnt (cs ++ ds)
      = ((genGoFieldNames h cnt cs).1 ++ (genGoFieldNames h (genGoFieldNames h cnt cs).2 ds).1,
          (genGoFieldNames h (genGoFieldNames h cnt cs).2 ds).2) := by
  induction cs generalizing cnt with
  | nil => rfl
  | cons c cs ih => simp [genGoFieldNames, ih]

theorem genGoFieldNames_count (h : Helpers) (cs : List (String × Bool)) (cnt : String → Nat)
    (N : String) :
    (genGoFieldNames h cnt cs).2 N
      = cnt N + cs.countP (fun c => c.2 && decide (normalizeName h c.1 = N)) := by
  induction cs generalizing cnt with
  | nil => simp [genGoFieldNames]
  | cons c cs ih =>
    simp only [genGoFieldNames, ih, genGoFieldName_count, List.countP_cons]
    by_cases hc : c.2 = true ∧ normalizeName h c.1 = N
    · simp [hc]; omega
    · simp [hc]

/-- C3: starting from the empty counter map, in any sequence of `genGoFieldName`
calls the `k`-th unique-mode call whose input normalizes to `N` returns `N` when
`k = 1` and `N` followed by the decimal numeral of `k` when `k > 1`; `k` counts
only the earlier unique-mode calls with the same normalized identifier, so
calls for other identifiers and non-unique calls do not matter. -/
theorem kth_unique_name (h : Helpers) (pre post : List (String × Bool)) (name : String) :
    (genGoFieldNames h emptyCount (pre ++ (name, true) :: post)).1[pre.length]?
      = some
        (if pre.countP
              (fun c => c.2 && decide (normalizeName h c.1 = normalizeName h name)) + 1 = 1
          then normalizeName h name
          else normalizeName h name ++
            toString (pre.countP
              (fun c => c.2 && decide (normalizeName h c.1 = normalizeName h name)) + 1)) := by
  rw [genGoFieldNames_append]
  simp only
  rw [List.getElem?_append_right (by rw [genGoFieldNames_length])]
  simp only [genGoFieldNames_length, Nat.sub_self, genGoFieldNames, List.getElem?_cons_zero]
  rw [genGoFieldName_unique_name, genGoFieldNames_count]
  simp only [emptyCount, Nat.zero_add]

/-- C4: the code at the failing input. Three unique-mode calls of
`genGoFieldName` on the distinct raw names `a`, `A`, `A2`, from empty counters,
return `A`, `A2`, `A2`: the suffixed name given to the second call is handed out
again, bare, to the third, so the returned names are not pairwise distinct. -/
theorem unique_names_collide :
    (genGoFieldNames specHelpers emptyCount [("a", true), ("A", true), ("A2", true)]).1
        = ["A", "A2", "A2"] ∧
      ¬ (genGoFieldNames specHelpers emptyCount
          [("a", true), ("A", true), ("A2", true)]).1.Nodup := by
  decide

/-- C5: the code at the failing input. On a fresh generator, `GoElement` on an
element named `a_b` and then on one named `ab` (both of type `string`, both
normalizing to `Ab`) appends two declarations that are both `type Ab`; the
second is not `type Ab2`, and the counter of `Ab` is still zero. The sibling
emitter `GoAttribute`, on attributes of the same two names, declares `type Ab`
and `type Ab2`. -/
theorem element_names_collide :
    normalizeName specHelpers "a_b" = "Ab" ∧ normalizeName specHelpers "ab" = "Ab" ∧
      (runCalls specHelpers (freshGen [])
          [Call.GoElement sampleElementAB, Call.GoElement sampleElementAb]).Field
        = "\n// Ab ...\ntype Ab\tstring\n\n// Ab ...\ntype Ab\tstring\n" ∧
      (runCalls specHelpers (freshGen [])
          [Call.GoElement sampleElementAB, Call.GoElement sampleElementAb]).fieldNameCount "Ab"
        = 0 ∧
      (runCalls specHelpers (freshGen [])
          [Call.GoAttribute sampleAttributeAB, Call.GoAttribute sampleAttributeAb]).Field
        = "\n// Ab ...\ntype Ab\tstring\n\n// Ab2 ...\ntype Ab2\tstring\n" := by
  decide

/-! ## The member loops produce the member lines -/

theorem tab_seq (x : String) : "\t" ++ ("[]" ++ x) = "\t[]" ++ x := by
  rw [← String.append_assoc]; rfl

theorem tab_ptr (x : String) : "\t" ++ ("*" ++ x) = "\t*" ++ x := by
  rw [← String.append_assoc]; rfl

theorem foldl_pair_lines {α : Type} (step : LoopState → α → LoopState) (f : α → String)
    (hstep : ∀ st a, (step st a).1 = st.1 ++ [f a]) (l : List α) (st : LoopState) :
    (l.foldl step st).1 = st.1 ++ l.map f := by
  induction l generalizing st with
  | nil => simp
  | cons a l ih => simp [List.foldl_cons, ih, hstep]

theorem foldl_lines {α : Type} (step : List String → α → List String) (f : α → String)
    (hstep : ∀ fs a, step fs a = fs ++ [f a]) (l : List α) (fs : List String) :
    l.foldl step fs = fs ++ l.map f := by
  induction l generalizing fs with
  | nil => simp
  | cons a l ih => simp [List.foldl_cons, ih, hstep]

theorem complexAttrGroupStep_line (h : Helpers) (gen : CodeGenerator) (st : LoopState)
    (ag : AttributeGroup) :
    (complexAttrGroupStep h gen st ag).1 = st.1 ++ [attrGroupRefLine h gen.ProtoTree ag] := by
  simp [complexAttrGroupStep, attrGroupRefLine, genGoFieldName_plain]

theorem complexAttributeStep_line (h : Helpers) (gen : CodeGenerator) (st : LoopState)
    (a : Attribute) :
    (complexAttributeStep h gen st a).1 = st.1 ++ [attributeLine h gen.ProtoTree a] := by
  simp [complexAttributeStep, attributeLine, resolvedType, genGoFieldName_plain,
    String.append_assoc]

theorem complexGroupStep_line (h : Helpers) (gen : CodeGenerator)
    (st : LoopState) (g : Group) :
    (complexGroupStep h gen st g).1 = st.1 ++ [complexGroupLine h gen.ProtoTree g] := by
  simp [complexGroupStep, complexGroupLine, resolvedType, genGoFieldName_plain,
    String.append_assoc]

theorem complexElementStep_line (h : Helpers) (gen : CodeGenerator)
    (st : LoopState) (e : Element) :
    (complexElementStep h gen st e).1 = st.1 ++ [complexElementLine h gen.ProtoTree e] := by
  simp [complexElementStep, complexElementLine, resolvedType, genGoFieldName_plain,
    String.append_assoc]

theorem groupElementStep_line (h : Helpers) (gen : CodeGenerator) (fs : List String)
    (e : Element) :
    groupElementStep h gen fs e = fs ++ [groupElementLine h gen.ProtoTree e] := by
  simp [groupElementStep, groupElementLine, resolvedType, genGoFieldName_plain,
    String.append_assoc]

theorem groupGroupStep_line (h : Helpers) (gen : CodeGenerator) (fs : List String)
    (g : Group) :
    groupGroupStep h gen fs g = fs ++ [groupGroupLine h gen.ProtoTree g] := by
  simp [groupGroupStep, groupGroupLine, resolvedType, genGoFieldName_plain,
    String.append_assoc]

theorem attrGroupAttributeStep_line (h : Helpers) (gen : CodeGenerator) (fs : List String)
    (a : Attribute) :
    attrGroupAttributeStep h gen fs a = fs ++ [attributeLine h gen.ProtoTree a] := by
  simp [attrGroupAttributeStep, attributeLine, resolvedType, genGoFieldName_plain,
    String.append_assoc]

theorem complexMemberLoops_lines (h : Helpers) (gen : CodeGenerator)
    (fs : List String) (v : ComplexType) :
    (complexMemberLoops h gen fs v).1
      = fs ++ v.AttributeGroup.map (attrGroupRefLine h gen.ProtoTree)
        ++ v.Attributes.map (attributeLine h gen.ProtoTree)
        ++ v.Groups.map (complexGroupLine h gen.ProtoTree)
        ++ v.Elements.map (complexElementLine h gen.ProtoTree) := by
  simp only [complexMemberLoops]
  rw [foldl_pair_lines _ _ (complexElementStep_line h gen),
    foldl_pair_lines _ _ (complexGroupStep_line h gen),
    foldl_pair_lines _ _ (complexAttributeStep_line h gen),
    foldl_pair_lines _ _ (complexAttrGroupStep_line h gen)]

theorem groupMemberLoops_lines (h : Helpers) (gen : CodeGenerator) (fs : List String)
    (v : Group) :
    groupMemberLoops h gen fs v
      = fs ++ v.Elements.map (groupElementLine h gen.ProtoTree)
        ++ v.Groups.map (groupGroupLine h gen.ProtoTree) := by
  simp only [groupMemberLoops]
  rw [foldl_lines _ _ (groupGroupStep_line h gen), foldl_lines _ _ (groupElementStep_line h gen)]

theorem string_length_pos_iff (s : String) : s.length > 0 ↔ s ≠ "" := by
  rw [gt_iff_lt, String.length, List.length_pos, ne_eq, ne_eq, String.ext_iff]

theorem genGoFieldType_builtin (h : Helpers) (name : String) (hb : name ∈ goBuiltinType) :
    genGoFieldType h name = name := by
  simp [genGoFieldType, hb]

theorem complexBaseStep_eq (h : Helpers) (fs : List String) (base : String) :
    complexBaseStep h fs base = fs ++ baseMember h base := by
  unfold complexBaseStep baseMember
  by_cases hb : base = ""
  · subst hb
    simp
  · have hl : base.length > 0 := (string_length_pos_iff base).2 hb
    by_cases hm : base ∈ goBuiltinType
    · simp [hb, hl, hm, isGoBuiltInType, genGoFieldType_builtin]
    · simp [hb, hl, hm, isGoBuiltInType, tab_ptr]

/-! ## The body each emitter records for a name not yet in the store -/

theorem GoComplexType_body (h : Helpers) (gen : CodeGenerator)
    (v : ComplexType) (hs : seen gen v.Name = false) :
    (GoComplexType h gen v).StructAST v.Name
      = some (complexBody
          (complexMembers h gen.ProtoTree (genGoFieldName h gen.fieldNameCount v.Name true).1 v
            ++ baseMember h v.Base)) := by
  simp only [GoComplexType, hs, appendDecl, setStructAST, Function.update_same]
  rw [complexBaseStep_eq, complexMemberLoops_lines h]
  simp only [Bool.false_eq_true, if_false, Function.update_same, complexMembers, identityMember]
  split_ifs <;> rfl

theorem GoGroup_body (h : Helpers) (gen : CodeGenerator) (v : Group)
    (hs : seen gen v.Name = false) :
    (GoGroup h gen v).StructAST v.Name
      = some (structBody
          (groupMembers h gen.ProtoTree (genGoFieldName h gen.fieldNameCount v.Name true).1 v)) := by
  simp only [GoGroup, hs, appendDecl, setStructAST, Function.update_same]
  rw [groupMemberLoops_lines h]
  simp only [Bool.false_eq_true, if_false, Function.update_same, groupMembers, identityMember]
  split_ifs <;> rfl

theorem GoAttributeGroup_body (h : Helpers) (gen : CodeGenerator) (v : AttributeGroup)
    (hs : seen gen v.Name = false) :
    (GoAttributeGroup h gen v).StructAST v.Name
      = some (structBody
          (attributeGroupMembers h gen.ProtoTree
            (genGoFieldName h gen.fieldNameCount v.Name true).1 v)) := by
  simp only [GoAttributeGroup, hs, appendDecl, setStructAST, Function.update_same]
  rw [foldl_lines _ _ (attrGroupAttributeStep_line h _)]
  simp only [Bool.false_eq_true, if_false, Function.update_same, attributeGroupMembers,
    identityMember]
  split_ifs <;> rfl

theorem GoAttribute_body (h : Helpers) (gen : CodeGenerator) (v : Attribute)
    (hs : seen gen v.Name = false) :
    (GoAttribute h gen v).StructAST v.Name
      = some ("\t" ++ h.plural v.Plural ++ resolvedType h gen.ProtoTree v.Type_ ++ "\n") := by
  simp [GoAttribute, hs, appendDecl, setStructAST, resolvedType]

theorem seqMemberLine_eq (h : Helpers) (name : String) (b : Bool) (ty tag : String) :
    seqMemberLine h name b ty tag
      = "\t" ++ normalizeName h name ++ "\t" ++ (if b then "[]" else "") ++ ty ++ tag := by
  cases b <;> simp [seqMemberLine, seqType, String.append_assoc, tab_seq]

theorem complexGroupLine_seq (h : Helpers) (hp : PluralSpec h) (tree : List (Option Node))
    (g : Group) :
    complexGroupLine h tree g
      = seqMemberLine h g.Name g.Plural (resolvedType h tree g.Ref) "" := by
  rw [seqMemberLine_eq, complexGroupLine, hp]
  simp

theorem complexElementLine_seq (h : Helpers) (hp : PluralSpec h) (tree : List (Option Node))
    (e : Element) :
    complexElementLine h tree e
      = seqMemberLine h e.Name e.Plural (elementType h tree e) (elementTag e) := by
  rw [seqMemberLine_eq, complexElementLine, hp, elementType, elementTag]
  simp only [String.append_assoc]

theorem groupElementLine_seq (h : Helpers) (tree : List (Option Node)) (e : Element) :
    groupElementLine h tree e
      = seqMemberLine h e.Name e.Plural (resolvedType h tree e.Type_) "" := by
  rw [seqMemberLine_eq, groupElementLine]
  simp

theorem groupGroupLine_seq (h : Helpers) (tree : List (Option Node)) (g : Group) :
    groupGroupLine h tree g
      = seqMemberLine h g.Name g.Plural (resolvedType h tree g.Ref) "" := by
  rw [seqMemberLine_eq, groupGroupLine]
  simp

/-! ## Cardinality, nillability and base handling of members -/

theorem complexElementLine_length (h : Helpers) (tree : List (Option Node)) (e : Element) :
    (complexElementLine h tree e).length
      = (normalizeName h e.Name).length + (h.plural e.Plural).length
        + (resolvedType h tree e.Type_).length + e.Name.length
        + (if e.Nillable then 22 else 11) := by
  have h1 : ("\t" : String).length = 1 := rfl
  have h2 : ("*" : String).length = 1 := rfl
  have h3 : (",omitempty" : String).length = 10 := rfl
  have h4 : ("\t`xml:\"" : String).length = 7 := rfl
  have h5 : ("\"`" : String).length = 2 := rfl
  cases hn : e.Nillable <;>
    simp [complexElementLine, hn, String.length_append] <;>
    omega

theorem complexElementLine_ne (h : Helpers) (tree : List (Option Node)) (e1 e2 : Element)
    (hn : e1.Name = e2.Name) (ht : e1.Type_ = e2.Type_) (hpl : e1.Plural = e2.Plural)
    (hnil : e1.Nillable ≠ e2.Nillable) :
    complexElementLine h tree e1 ≠ complexElementLine h tree e2 := by
  intro heq
  have hl := congrArg String.length heq
  rw [complexElementLine_length, complexElementLine_length, hn, ht, hpl] at hl
  cases h1 : e1.Nillable <;> cases h2 : e2.Nillable <;> simp_all

/-- C6: with `plural` as the specification describes it, the body recorded for
a ComplexType holds, for each group reference and then each element, in order, a
member line whose type text is `[]` followed by `T` when the member is plural and
`T` alone when it is not (`T` being the resolved type, behind `*` for a nillable
element); the body recorded for a Group holds such a line for each element and
then each group reference. -/
theorem plural_members_sequence_typed (h : Helpers) (hp : PluralSpec h) (gen : CodeGenerator) :
    (∀ v : ComplexType, seen gen v.Name = false → ∃ pre post,
      (GoComplexType h gen v).StructAST v.Name = some (complexBody (pre
        ++ v.Groups.map
            (fun g => seqMemberLine h g.Name g.Plural (resolvedType h gen.ProtoTree g.Ref) "")
        ++ v.Elements.map
            (fun e => seqMemberLine h e.Name e.Plural (elementType h gen.ProtoTree e)
              (elementTag e))
        ++ post))) ∧
    (∀ v : Group, seen gen v.Name = false → ∃ pre,
      (GoGroup h gen v).StructAST v.Name = some (structBody (pre
        ++ v.Elements.map
            (fun e => seqMemberLine h e.Name e.Plural (resolvedType h gen.ProtoTree e.Type_) "")
        ++ v.Groups.map
            (fun g => seqMemberLine h g.Name g.Plural (resolvedType h gen.ProtoTree g.Ref) "")))) ∧
    (∀ name ty tag,
      seqMemberLine h name true ty tag = "\t" ++ normalizeName h name ++ "\t" ++ "[]" ++ ty ++ tag ∧
      seqMemberLine h name false ty tag = "\t" ++ normalizeName h name ++ "\t" ++ ty ++ tag) := by
  refine ⟨?_, ?_, ?_⟩
  · intro v hs
    refine ⟨identityMember (genGoFieldName h gen.fieldNameCount v.Name true).1 v.Name
      ++ v.AttributeGroup.map (attrGroupRefLine h gen.ProtoTree)
      ++ v.Attributes.map (attributeLine h gen.ProtoTree), baseMember h v.Base, ?_⟩
    rw [GoComplexType_body h gen v hs, complexMembers]
    have e1 : complexGroupLine h gen.ProtoTree
        = fun g => seqMemberLine h g.Name g.Plural (resolvedType h gen.ProtoTree g.Ref) "" :=
      funext (complexGroupLine_seq h hp gen.ProtoTree)
    have e2 : complexElementLine h gen.ProtoTree
        = fun e => seqMemberLine h e.Name e.Plural (elementType h gen.ProtoTree e)
            (elementTag e) :=
      funext (complexElementLine_seq h hp gen.ProtoTree)
    rw [e1, e2]
  · intro v hs
    refine ⟨identityMember (genGoFieldName h gen.fieldNameCount v.Name true).1 v.Name, ?_⟩
    rw [GoGroup_body h gen v hs, groupMembers]
    have e1 : groupGroupLine h gen.ProtoTree
        = fun g => seqMemberLine h g.Name g.Plural (resolvedType h gen.ProtoTree g.Ref) "" :=
      funext (groupGroupLine_seq h gen.ProtoTree)
    have e2 : groupElementLine h gen.ProtoTree
        = fun e => seqMemberLine h e.Name e.Plural (resolvedType h gen.ProtoTree e.Type_) "" :=
      funext (groupElementLine_seq h gen.ProtoTree)
    rw [e1, e2]
  · intro name ty tag
    constructor
    · simp [seqMemberLine, seqType, String.append_assoc, tab_seq]
    · simp [seqMemberLine, seqType, String.append_assoc]

/-- C8: the body recorded for a not-yet-seen ComplexType holds one member line
per element, in order; that line carries `*` (after the cardinality text) and
`,omitempty` in its xml tag when the element is nillable and neither when it is
not; and two elements with the same name, type and cardinality but different
nillability have different member lines. -/
theorem nillable_member_marked (h : Helpers) (gen : CodeGenerator) (v : ComplexType)
    (hs : seen gen v.Name = false) :
    (∃ pre post, (GoComplexType h gen v).StructAST v.Name
      = some (complexBody
          (pre ++ v.Elements.map (complexElementLine h gen.ProtoTree) ++ post))) ∧
    (∀ e : Element, e.Nillable = true → complexElementLine h gen.ProtoTree e
      = "\t" ++ normalizeName h e.Name ++ "\t" ++ h.plural e.Plural ++ "*"
        ++ resolvedType h gen.ProtoTree e.Type_ ++ "\t`xml:\"" ++ e.Name ++ ",omitempty" ++ "\"`") ∧
    (∀ e : Element, e.Nillable = false → complexElementLine h gen.ProtoTree e
      = "\t" ++ normalizeName h e.Name ++ "\t" ++ h.plural e.Plural
        ++ resolvedType h gen.ProtoTree e.Type_ ++ "\t`xml:\"" ++ e.Name ++ "\"`") ∧
    (∀ e1 e2 : Element, e1.Name = e2.Name → e1.Type_ = e2.Type_ → e1.Plural = e2.Plural →
      e1.Nillable ≠ e2.Nillable →
      complexElementLine h gen.ProtoTree e1 ≠ complexElementLine h gen.ProtoTree e2) := by
  refine ⟨?_, ?_, ?_, ?_⟩
  · refine ⟨identityMember (genGoFieldName h gen.fieldNameCount v.Name true).1 v.Name
      ++ v.AttributeGroup.map (attrGroupRefLine h gen.ProtoTree)
      ++ v.Attributes.map (attributeLine h gen.ProtoTree)
      ++ v.Groups.map (complexGroupLine h gen.ProtoTree), baseMember h v.Base, ?_⟩
    rw [GoComplexType_body h gen v hs, complexMembers]
  · intro e he
    simp [complexElementLine, he]
  · intro e he
    simp [complexElementLine, he, String.append_assoc]
  · intro e1 e2 hn ht hpl hnil
    exact complexElementLine_ne h gen.ProtoTree e1 e2 hn ht hpl hnil

/-- C10: for a not-yet-seen ComplexType the recorded body is the struct of the
members that do not come from `Base` followed by one last member decided by
`Base` alone: `Value` typed `Base` with tag `xml:",chardata"` when `Base` is a Go
builtin, the embedded member `*` + `genGoFieldType(Base)` when `Base` is any other
non-empty name, and no further member when `Base` is empty. The other members
are the same whatever `Base` is. -/
theorem base_member_last (h : Helpers) (gen : CodeGenerator) (v : ComplexType)
    (hs : seen gen v.Name = false) :
    (v.Base ≠ "" → v.Base ∈ goBuiltinType →
      (GoComplexType h gen v).StructAST v.Name
        = some (" struct \x7b\n" ++ stringsJoin
            (complexMembers h gen.ProtoTree (genGoFieldName h gen.fieldNameCount v.Name true).1 v
              ++ ["\tValue\t" ++ v.Base ++ "\t`xml:\",chardata\"`"]) "\n" ++ "\x7d\n")) ∧
    (v.Base ≠ "" → v.Base ∉ goBuiltinType →
      (GoComplexType h gen v).StructAST v.Name
        = some (" struct \x7b\n" ++ stringsJoin
            (complexMembers h gen.ProtoTree (genGoFieldName h gen.fieldNameCount v.Name true).1 v
              ++ ["\t*" ++ genGoFieldType h v.Base]) "\n" ++ "\x7d\n")) ∧
    (v.Base = "" →
      (GoComplexType h gen v).StructAST v.Name
        = some (complexBody
            (complexMembers h gen.ProtoTree
              (genGoFieldName h gen.fieldNameCount v.Name true).1 v))) ∧
    (∀ (declName b : String),
      complexMembers h gen.ProtoTree declName { v with Base := b }
        = complexMembers h gen.ProtoTree declName v) := by
  refine ⟨?_, ?_, ?_, ?_⟩
  · intro hb hm
    rw [GoComplexType_body h gen v hs]
    simp [baseMember, hb, hm, complexBody]
  · intro hb hm
    rw [GoComplexType_body h gen v hs]
    simp [baseMember, hb, hm, complexBody]
  · intro hb
    rw [GoComplexType_body h gen v hs]
    simp [baseMember, hb]
  · intro declName b
    rfl

theorem specHelpers_plural : PluralSpec specHelpers := by
  intro b
  cases b <;> rfl

/-- Witness of C6: the sample ComplexType on a fresh generator. -/
theorem plural_members_sequence_typed_witness :
    PluralSpec specHelpers ∧ seen (freshGen []) sampleComplexType.Name = false ∧
      ∃ pre post,
        (GoComplexType specHelpers (freshGen []) sampleComplexType).StructAST
            sampleComplexType.Name
          = some (complexBody (pre
            ++ sampleComplexType.Groups.map
                (fun g => seqMemberLine specHelpers g.Name g.Plural
                  (resolvedType specHelpers (freshGen []).ProtoTree g.Ref) "")
            ++ sampleComplexType.Elements.map
                (fun e => seqMemberLine specHelpers e.Name e.Plural
                  (elementType specHelpers (freshGen []).ProtoTree e) (elementTag e))
            ++ post)) :=
  ⟨specHelpers_plural, by decide,
    (plural_members_sequence_typed specHelpers specHelpers_plural (freshGen [])).1
      sampleComplexType (by decide)⟩

/-- C7, counterexample: a plural attribute that is a member of a ComplexType or
of an AttributeGroup is emitted with its bare type `string`, not `[]string`. -/
theorem plural_attribute_member_is_scalar :
    samplePluralAttribute.Plural = true ∧
      (GoComplexType specHelpers (freshGen []) sampleAttrComplexType).StructAST "T"
        = some " struct \x7b\n\tA\tstring\t`xml:\"a,attr\"`\x7d\n" ∧
      (GoAttributeGroup specHelpers (freshGen []) sampleAttributeGroup).StructAST "T"
        = some " struct \x7b\n\tA\tstring\t`xml:\"a,attr\"`\n\x7d\n" ∧
      (complexAttributeStep specHelpers (freshGen []) ([], false) samplePluralAttribute).1
        ≠ [seqMemberLine specHelpers "a" true "string" "\t`xml:\"a,attr\"`"] ∧
      attrGroupAttributeStep specHelpers (freshGen []) [] samplePluralAttribute
        ≠ [seqMemberLine specHelpers "a" true "string" "\t`xml:\"a,attr\"`"] := by
  decide

/-- C7, amended: with `plural` as the specification describes it, an Attribute
emitted standalone by `GoAttribute` is recorded with the type `[]` + `T` when it
is plural and `T` when it is not; as a member of a ComplexType or of an
AttributeGroup its member line has the type `T` whatever `Plural` is. -/
theorem attribute_sequence_only_standalone (h : Helpers) (hp : PluralSpec h)
    (gen : CodeGenerator) :
    (∀ v : Attribute, seen gen v.Name = false →
      (GoAttribute h gen v).StructAST v.Name
        = some ("\t" ++ seqType v.Plural (resolvedType h gen.ProtoTree v.Type_) ++ "\n")) ∧
    (∀ v : ComplexType, seen gen v.Name = false → ∃ pre post,
      (GoComplexType h gen v).StructAST v.Name
        = some (complexBody
            (pre ++ v.Attributes.map (attributeLine h gen.ProtoTree) ++ post))) ∧
    (∀ v : AttributeGroup, seen gen v.Name = false → ∃ pre,
      (GoAttributeGroup h gen v).StructAST v.Name
        = some (structBody (pre ++ v.Attributes.map (attributeLine h gen.ProtoTree)))) ∧
    (∀ a : Attribute, attributeLine h gen.ProtoTree a
      = "\t" ++ normalizeName h a.Name ++ "\t" ++ resolvedType h gen.ProtoTree a.Type_
        ++ "\t`xml:\"" ++ a.Name ++ ",attr" ++ (if a.Optional then ",omitempty" else "")
        ++ "\"`") := by
  refine ⟨?_, ?_, ?_, ?_⟩
  · intro v hs
    rw [GoAttribute_body h gen v hs, hp]
    cases v.Plural <;> simp [seqType, String.append_assoc, tab_seq]
  · intro v hs
    refine ⟨identityMember (genGoFieldName h gen.fieldNameCount v.Name true).1 v.Name
      ++ v.AttributeGroup.map (attrGroupRefLine h gen.ProtoTree),
      v.Groups.map (complexGroupLine h gen.ProtoTree)
        ++ v.Elements.map (complexElementLine h gen.ProtoTree) ++ baseMember h v.Base, ?_⟩
    rw [GoComplexType_body h gen v hs, complexMembers]
    simp only [List.append_assoc]
  · intro v hs
    exact ⟨identityMember (genGoFieldName h gen.fieldNameCount v.Name true).1 v.Name,
      by rw [GoAttributeGroup_body h gen v hs, attributeGroupMembers]⟩
  · intro a
    rfl

/-- Witness of C7 (amended): the plural attribute `a`, standalone on a fresh generator. -/
theorem attribute_sequence_only_standalone_witness :
    PluralSpec specHelpers ∧ seen (freshGen []) samplePluralAttribute.Name = false ∧
      (GoAttribute specHelpers (freshGen []) samplePluralAttribute).StructAST
          samplePluralAttribute.Name
        = some ("\t" ++ seqType samplePluralAttribute.Plural
            (resolvedType specHelpers (freshGen []).ProtoTree samplePluralAttribute.Type_)
            ++ "\n") :=
  ⟨specHelpers_plural, by decide,
    (attribute_sequence_only_standalone specHelpers specHelpers_plural (freshGen [])).1
      samplePluralAttribute (by decide)⟩

/-- Witness of C8: the sample ComplexType on a fresh generator. -/
theorem nillable_member_marked_witness :
    seen (freshGen []) sampleComplexType.Name = false ∧
      complexElementLine specHelpers (freshGen []).ProtoTree sampleNillableElement
        = "\t" ++ normalizeName specHelpers sampleNillableElement.Name ++ "\t"
          ++ specHelpers.plural sampleNillableElement.Plural ++ "*"
          ++ resolvedType specHelpers (freshGen []).ProtoTree sampleNillableElement.Type_
          ++ "\t`xml:\"" ++ sampleNillableElement.Name ++ ",omitempty" ++ "\"`" :=
  ⟨by decide,
    (nillable_member_marked specHelpers (freshGen []) sampleComplexType (by decide)).2.1
      sampleNillableElement (by decide)⟩

/-- C9, counterexample: for the single element `a_b` of type `string`, `GoGroup`
emits the member line `Ab string` without a tag, while `GoComplexType` emits
the line with the wire-name tag `xml:"a_b"`. -/
theorem group_member_lines_differ :
    sampleElementGroup.Elements = sampleElementComplexType.Elements ∧
      sampleElementGroup.Groups = sampleElementComplexType.Groups ∧
      groupMemberLoops specHelpers (freshGen []) [] sampleElementGroup = ["\tAb\tstring"] ∧
      (complexMemberLoops specHelpers (freshGen []) [] sampleElementComplexType).1
        = ["\tAb\tstring\t`xml:\"a_b\"`"] ∧
      groupMemberLoops specHelpers (freshGen []) [] sampleElementGroup
        ≠ (complexMemberLoops specHelpers (freshGen []) [] sampleElementComplexType).1 :=
  ⟨rfl, rfl, by decide, by decide, by decide⟩

/-- C9, amended: with `plural` as the specification describes it, for a Group
and a ComplexType with the same elements and group references (and no
attributes), `GoGroup` emits the element lines and then the group-reference
lines, `GoComplexType` the group-reference lines and then the element lines; the
group-reference lines are the same in both; an element line of `GoGroup` is the
name and the cardinality-typed resolved type alone, and the `GoComplexType` line
of a non-nillable element is that line followed by the wire-name tag. -/
theorem group_members_vs_complex (h : Helpers) (hp : PluralSpec h) (gen : CodeGenerator)
    (fs : List String) (v : Group) (w : ComplexType)
    (he : w.Elements = v.Elements) (hg : w.Groups = v.Groups)
    (ha : w.Attributes = []) (hag : w.AttributeGroup = []) :
    groupMemberLoops h gen fs v
      = fs
        ++ v.Elements.map
            (fun e => seqMemberLine h e.Name e.Plural (resolvedType h gen.ProtoTree e.Type_) "")
        ++ v.Groups.map
            (fun g => seqMemberLine h g.Name g.Plural (resolvedType h gen.ProtoTree g.Ref) "") ∧
    (complexMemberLoops h gen fs w).1
      = fs
        ++ v.Groups.map
            (fun g => seqMemberLine h g.Name g.Plural (resolvedType h gen.ProtoTree g.Ref) "")
        ++ v.Elements.map
            (fun e => seqMemberLine h e.Name e.Plural (elementType h gen.ProtoTree e)
              (elementTag e)) ∧
    (∀ e : Element, e.Nillable = false →
      seqMemberLine h e.Name e.Plural (elementType h gen.ProtoTree e) (elementTag e)
        = seqMemberLine h e.Name e.Plural (resolvedType h gen.ProtoTree e.Type_) ""
          ++ "\t`xml:\"" ++ e.Name ++ "\"`") := by
  have e1 : complexGroupLine h gen.ProtoTree
      = fun g => seqMemberLine h g.Name g.Plural (resolvedType h gen.ProtoTree g.Ref) "" :=
    funext (complexGroupLine_seq h hp gen.ProtoTree)
  have e2 : complexElementLine h gen.ProtoTree
      = fun e => seqMemberLine h e.Name e.Plural (elementType h gen.ProtoTree e)
          (elementTag e) :=
    funext (complexElementLine_seq h hp gen.ProtoTree)
  have e3 : groupGroupLine h gen.ProtoTree
      = fun g => seqMemberLine h g.Name g.Plural (resolvedType h gen.ProtoTree g.Ref) "" :=
    funext (groupGroupLine_seq h gen.ProtoTree)
  have e4 : groupElementLine h gen.ProtoTree
      = fun e => seqMemberLine h e.Name e.Plural (resolvedType h gen.ProtoTree e.Type_) "" :=
    funext (groupElementLine_seq h gen.ProtoTree)
  refine ⟨?_, ?_, ?_⟩
  · rw [groupMemberLoops_lines, e3, e4]
  · rw [complexMemberLoops_lines, e1, e2, he, hg, ha, hag]
    simp
  · intro e hn
    simp [seqMemberLine, elementType, elementTag, hn, String.append_assoc]

/-- Witness of C9 (amended): the sample Group and ComplexType holding the element `a_b`. -/
theorem group_members_vs_complex_witness :
    PluralSpec specHelpers ∧
      sampleElementComplexType.Elements = sampleElementGroup.Elements ∧
      sampleElementComplexType.Groups = sampleElementGroup.Groups ∧
      sampleElementComplexType.Attributes = [] ∧
      sampleElementComplexType.AttributeGroup = [] ∧
      groupMemberLoops specHelpers (freshGen []) [] sampleElementGroup
        = [] ++ sampleElementGroup.Elements.map
            (fun e => seqMemberLine specHelpers e.Name e.Plural
              (resolvedType specHelpers (freshGen []).ProtoTree e.Type_) "")
          ++ sampleElementGroup.Groups.map
            (fun g => seqMemberLine specHelpers g.Name g.Plural
              (resolvedType specHelpers (freshGen []).ProtoTree g.Ref) "") :=
  ⟨specHelpers_plural, rfl, rfl, rfl, rfl,
    (group_members_vs_complex specHelpers specHelpers_plural (freshGen []) []
      sampleElementGroup sampleElementComplexType rfl rfl rfl rfl).1⟩

/-- Witness of C10: the sample ComplexType, whose base `string` is a Go builtin. -/
theorem base_member_last_witness :
    seen (freshGen []) sampleComplexType.Name = false ∧ sampleComplexType.Base ≠ "" ∧
      sampleComplexType.Base ∈ goBuiltinType ∧
      (GoComplexType specHelpers (freshGen []) sampleComplexType).StructAST
          sampleComplexType.Name
        = some (" struct \x7b\n" ++ stringsJoin
            (complexMembers specHelpers (freshGen []).ProtoTree
                (genGoFieldName specHelpers (freshGen []).fieldNameCount
                  sampleComplexType.Name true).1 sampleComplexType
              ++ ["\tValue\t" ++ sampleComplexType.Base ++ "\t`xml:\",chardata\"`"]) "\n"
            ++ "\x7d\n") :=
  ⟨by decide, by decide, by decide,
    (base_member_last specHelpers (freshGen []) sampleComplexType (by decide)).1
      (by decide) (by decide)⟩

/-! ## Placeholder and identity member -/

theorem struct_ne_interfaceType (x : String) : " struct \x7b\n" ++ x ≠ interfaceType := by
  intro hx
  have h1 := congrArg (fun s : String => s.data.take 2) hx
  simp only [String.data_append] at h1
  have h3 : interfaceType.data
      = [' ', 'i', 'n', 't', 'e', 'r', 'f', 'a', 'c', 'e', '\x7b', '\x7d', '\n'] := rfl
  rw [h3] at h1
  simp at h1

theorem complexBody_nil : complexBody [] = interfaceType := rfl

theorem complexBody_of_ne_nil (fields : List String) (hf : fields ≠ []) :
    complexBody fields = " struct \x7b\n" ++ stringsJoin fields "\n" ++ "\x7d\n" := by
  have : fields.length ≠ 0 := fun h0 => hf (List.length_eq_zero.1 h0)
  simp [complexBody, this]

theorem complexBody_eq_interfaceType_iff (fields : List String) :
    complexBody fields = interfaceType ↔ fields = [] := by
  constructor
  · intro hb
    by_contra hf
    rw [complexBody_of_ne_nil fields hf, String.append_assoc] at hb
    exact struct_ne_interfaceType _ hb
  · rintro rfl
    rfl

theorem structBody_of_ne_nil (fields : List String) (hf : fields ≠ []) :
    structBody fields = " struct \x7b\n" ++ stringsJoin fields "\n" ++ "\n\x7d\n" := by
  have : fields.length > 0 := List.length_pos.2 hf
  simp [structBody, this]

theorem structBody_eq_interfaceType_iff (fields : List String) :
    structBody fields = interfaceType ↔ fields = [] := by
  constructor
  · intro hb
    by_contra hf
    rw [structBody_of_ne_nil fields hf, String.append_assoc] at hb
    exact struct_ne_interfaceType _ hb
  · rintro rfl
    rfl

theorem identityMember_eq_nil_iff (declName name : String) :
    identityMember declName name = [] ↔ declName = name := by
  unfold identityMember
  split_ifs with hd
  · simp [hd]
  · simp only [ne_eq, not_not] at hd
    simp [hd]

theorem baseMember_eq_nil_iff (h : Helpers) (base : String) :
    baseMember h base = [] ↔ base = "" := by
  unfold baseMember
  split_ifs with h1 h2 <;> simp [h1]

theorem complexMembers_nil_iff (h : Helpers) (tree : List (Option Node)) (declName : String)
    (v : ComplexType) :
    complexMembers h tree declName v ++ baseMember h v.Base = [] ↔
      declName = v.Name ∧ v.AttributeGroup = [] ∧ v.Attributes = [] ∧ v.Groups = [] ∧
        v.Elements = [] ∧ v.Base = "" := by
  simp only [complexMembers, List.append_eq_nil, List.map_eq_nil_iff, identityMember_eq_nil_iff,
    baseMember_eq_nil_iff, and_assoc]

theorem groupMembers_nil_iff (h : Helpers) (tree : List (Option Node)) (declName : String)
    (v : Group) :
    groupMembers h tree declName v = [] ↔
      declName = v.Name ∧ v.Elements = [] ∧ v.Groups = [] := by
  simp only [groupMembers, List.append_eq_nil, List.map_eq_nil_iff, identityMember_eq_nil_iff,
    and_assoc]

theorem attributeGroupMembers_nil_iff (h : Helpers) (tree : List (Option Node))
    (declName : String) (v : AttributeGroup) :
    attributeGroupMembers h tree declName v = [] ↔ declName = v.Name ∧ v.Attributes = [] := by
  simp only [attributeGroupMembers, List.append_eq_nil, List.map_eq_nil_iff,
    identityMember_eq_nil_iff]

theorem unionMemberStep_line (h : Helpers) (gen : CodeGenerator) (fs : List String)
    (member : String × String) :
    unionMemberStep h gen fs member = fs ++ [unionMemberLine h gen.ProtoTree member] := by
  simp [unionMemberStep, unionMemberLine, genGoFieldName_plain, String.append_assoc]

theorem GoSimpleType_union_body (h : Helpers) (gen : CodeGenerator) (v : SimpleType)
    (hl : v.List = false) (hu : v.Union = true) (hm : v.MemberTypes.length > 0)
    (hs : seen gen v.Name = false) :
    (GoSimpleType h gen v).StructAST v.Name
      = some (structBody
          (unionMembers h gen.ProtoTree (genGoFieldName h gen.fieldNameCount v.Name true).1 v)) := by
  simp only [GoSimpleType, hl, hu, hm, hs, appendDecl, setStructAST]
  rw [foldl_lines _ _ (unionMemberStep_line h _)]
  simp only [Bool.false_eq_true, false_and, and_self, if_false, if_true, Function.update_same,
    unionMembers, identityMember]
  split_ifs <;> rfl

theorem GoComplexType_importXML (h : Helpers) (gen : CodeGenerator) (v : ComplexType)
    (hs : seen gen v.Name = false)
    (hd : (genGoFieldName h gen.fieldNameCount v.Name true).1 ≠ v.Name) :
    (GoComplexType h gen v).ImportEncodingXML = true := by
  simp [GoComplexType, hs, appendDecl, setStructAST, hd]

theorem GoGroup_importXML (h : Helpers) (gen : CodeGenerator) (v : Group)
    (hs : seen gen v.Name = false)
    (hd : (genGoFieldName h gen.fieldNameCount v.Name true).1 ≠ v.Name) :
    (GoGroup h gen v).ImportEncodingXML = true := by
  simp [GoGroup, hs, appendDecl, setStructAST, hd]

theorem GoAttributeGroup_importXML (h : Helpers) (gen : CodeGenerator) (v : AttributeGroup)
    (hs : seen gen v.Name = false)
    (hd : (genGoFieldName h gen.fieldNameCount v.Name true).1 ≠ v.Name) :
    (GoAttributeGroup h gen v).ImportEncodingXML = true := by
  simp [GoAttributeGroup, hs, appendDecl, setStructAST, hd]

theorem GoSimpleType_union_importXML (h : Helpers) (gen : CodeGenerator) (v : SimpleType)
    (hl : v.List = false) (hu : v.Union = true) (hm : v.MemberTypes.length > 0)
    (hs : seen gen v.Name = false)
    (hd : (genGoFieldName h gen.fieldNameCount v.Name true).1 ≠ v.Name) :
    (GoSimpleType h gen v).ImportEncodingXML = true := by
  simp [GoSimpleType, hl, hu, hm, hs, appendDecl, setStructAST, hd]

/-- C11: for a not-yet-seen ComplexType, Group or AttributeGroup the recorded
body is the placeholder ` interface{}` exactly when the node has no member at
all (declaration name equal to the raw name, no attribute-group, attribute,
group or element member, no base); otherwise it is a struct holding every
member line, of which there is at least one. -/
theorem placeholder_iff_no_members (h : Helpers) (gen : CodeGenerator) :
    (∀ v : ComplexType, seen gen v.Name = false →
      ((GoComplexType h gen v).StructAST v.Name = some interfaceType ↔
        ((genGoFieldName h gen.fieldNameCount v.Name true).1 = v.Name ∧ v.AttributeGroup = [] ∧
          v.Attributes = [] ∧ v.Groups = [] ∧ v.Elements = [] ∧ v.Base = "")) ∧
      ((GoComplexType h gen v).StructAST v.Name ≠ some interfaceType →
        complexMembers h gen.ProtoTree (genGoFieldName h gen.fieldNameCount v.Name true).1 v
            ++ baseMember h v.Base ≠ [] ∧
          (GoComplexType h gen v).StructAST v.Name
            = some (" struct \x7b\n" ++ stringsJoin
                (complexMembers h gen.ProtoTree
                    (genGoFieldName h gen.fieldNameCount v.Name true).1 v
                  ++ baseMember h v.Base) "\n" ++ "\x7d\n"))) ∧
    (∀ v : Group, seen gen v.Name = false →
      ((GoGroup h gen v).StructAST v.Name = some interfaceType ↔
        ((genGoFieldName h gen.fieldNameCount v.Name true).1 = v.Name ∧ v.Elements = [] ∧
          v.Groups = [])) ∧
      ((GoGroup h gen v).StructAST v.Name ≠ some interfaceType →
        groupMembers h gen.ProtoTree (genGoFieldName h gen.fieldNameCount v.Name true).1 v ≠ [] ∧
          (GoGroup h gen v).StructAST v.Name
            = some (" struct \x7b\n" ++ stringsJoin
                (groupMembers h gen.ProtoTree
                  (genGoFieldName h gen.fieldNameCount v.Name true).1 v) "\n" ++ "\n\x7d\n"))) ∧
    (∀ v : AttributeGroup, seen gen v.Name = false →
      ((GoAttributeGroup h gen v).StructAST v.Name = some interfaceType ↔
        ((genGoFieldName h gen.fieldNameCount v.Name true).1 = v.Name ∧ v.Attributes = [])) ∧
      ((GoAttributeGroup h gen v).StructAST v.Name ≠ some interfaceType →
        attributeGroupMembers h gen.ProtoTree
            (genGoFieldName h gen.fieldNameCount v.Name true).1 v ≠ [] ∧
          (GoAttributeGroup h gen v).StructAST v.Name
            = some (" struct \x7b\n" ++ stringsJoin
                (attributeGroupMembers h gen.ProtoTree
                  (genGoFieldName h gen.fieldNameCount v.Name true).1 v) "\n" ++ "\n\x7d\n"))) := by
  refine ⟨?_, ?_, ?_⟩
  · intro v hs
    rw [GoComplexType_body h gen v hs]
    constructor
    · rw [Option.some.injEq, complexBody_eq_interfaceType_iff, complexMembers_nil_iff]
    · intro hne
      have hm : ¬ _ = [] := fun hnil => hne (congrArg some ((complexBody_eq_interfaceType_iff _).2 hnil))
      exact ⟨hm, congrArg some (complexBody_of_ne_nil _ hm)⟩
  · intro v hs
    rw [GoGroup_body h gen v hs]
    constructor
    · rw [Option.some.injEq, structBody_eq_interfaceType_iff, groupMembers_nil_iff]
    · intro hne
      have hm : ¬ _ = [] := fun hnil => hne (congrArg some ((structBody_eq_interfaceType_iff _).2 hnil))
      exact ⟨hm, congrArg some (structBody_of_ne_nil _ hm)⟩
  · intro v hs
    rw [GoAttributeGroup_body h gen v hs]
    constructor
    · rw [Option.some.injEq, structBody_eq_interfaceType_iff, attributeGroupMembers_nil_iff]
    · intro hne
      have hm : ¬ _ = [] := fun hnil => hne (congrArg some ((structBody_eq_interfaceType_iff _).2 hnil))
      exact ⟨hm, congrArg some (structBody_of_ne_nil _ hm)⟩

/-- Witness of C11: the member-less ComplexType `Empty` on a fresh generator gets
the placeholder body. -/
theorem placeholder_iff_no_members_witness :
    seen (freshGen []) sampleEmptyComplexType.Name = false ∧
      (GoComplexType specHelpers (freshGen []) sampleEmptyComplexType).StructAST
          sampleEmptyComplexType.Name = some interfaceType :=
  ⟨by decide,
    ((placeholder_iff_no_members specHelpers (freshGen [])).1 sampleEmptyComplexType
      (by decide)).1.2 ⟨by decide, rfl, rfl, rfl, rfl, rfl⟩⟩

/-- C12: for a not-yet-seen ComplexType, Group, AttributeGroup or Union
SimpleType with members, the recorded body is built from the identity member
followed by the node's own members, where the identity member is the single
line `XMLName xml.Name` tagged with the raw name when the declaration name
returned by `genGoFieldName(v.Name, true)` differs from the raw name and is
absent when they are equal; and when it is present `ImportEncodingXML` is true
after the call. -/
theorem identity_member_iff_renamed (h : Helpers) (gen : CodeGenerator) :
    (∀ v : ComplexType, seen gen v.Name = false →
      (GoComplexType h gen v).StructAST v.Name
        = some (complexBody
            (identityMember (genGoFieldName h gen.fieldNameCount v.Name true).1 v.Name
              ++ (v.AttributeGroup.map (attrGroupRefLine h gen.ProtoTree)
                ++ v.Attributes.map (attributeLine h gen.ProtoTree)
                ++ v.Groups.map (complexGroupLine h gen.ProtoTree)
                ++ v.Elements.map (complexElementLine h gen.ProtoTree)
                ++ baseMember h v.Base))) ∧
      ((genGoFieldName h gen.fieldNameCount v.Name true).1 ≠ v.Name →
        (GoComplexType h gen v).ImportEncodingXML = true)) ∧
    (∀ v : Group, seen gen v.Name = false →
      (GoGroup h gen v).StructAST v.Name
        = some (structBody
            (identityMember (genGoFieldName h gen.fieldNameCount v.Name true).1 v.Name
              ++ (v.Elements.map (groupElementLine h gen.ProtoTree)
                ++ v.Groups.map (groupGroupLine h gen.ProtoTree)))) ∧
      ((genGoFieldName h gen.fieldNameCount v.Name true).1 ≠ v.Name →
        (GoGroup h gen v).ImportEncodingXML = true)) ∧
    (∀ v : AttributeGroup, seen gen v.Name = false →
      (GoAttributeGroup h gen v).StructAST v.Name
        = some (structBody
            (identityMember (genGoFieldName h gen.fieldNameCount v.Name true).1 v.Name
              ++ v.Attributes.map (attributeLine h gen.ProtoTree))) ∧
      ((genGoFieldName h gen.fieldNameCount v.Name true).1 ≠ v.Name →
        (GoAttributeGroup h gen v).ImportEncodingXML = true)) ∧
    (∀ v : SimpleType, v.List = false → v.Union = true → v.MemberTypes.length > 0 →
      seen gen v.Name = false →
      (GoSimpleType h gen v).StructAST v.Name
        = some (structBody
            (identityMember (genGoFieldName h gen.fieldNameCount v.Name true).1 v.Name
              ++ (h.toSortedPairs v.MemberTypes).map (unionMemberLine h gen.ProtoTree))) ∧
      ((genGoFieldName h gen.fieldNameCount v.Name true).1 ≠ v.Name →
        (GoSimpleType h gen v).ImportEncodingXML = true)) ∧
    (∀ declName name : String,
      (declName ≠ name →
        identityMember declName name = ["\tXMLName\txml.Name\t`xml:\"" ++ name ++ "\"`"]) ∧
      (declName = name → identityMember declName name = [])) := by
  refine ⟨?_, ?_, ?_, ?_, ?_⟩
  · intro v hs
    refine ⟨?_, GoComplexType_importXML h gen v hs⟩
    rw [GoComplexType_body h gen v hs, complexMembers]
    simp only [List.append_assoc]
  · intro v hs
    refine ⟨?_, GoGroup_importXML h gen v hs⟩
    rw [GoGroup_body h gen v hs, groupMembers]
    simp only [List.append_assoc]
  · intro v hs
    exact ⟨by rw [GoAttributeGroup_body h gen v hs, attributeGroupMembers],
      GoAttributeGroup_importXML h gen v hs⟩
  · intro v hl hu hm hs
    exact ⟨by rw [GoSimpleType_union_body h gen v hl hu hm hs, unionMembers],
      GoSimpleType_union_importXML h gen v hl hu hm hs⟩
  · intro declName name
    constructor
    · intro hd
      simp [identityMember, hd, xmlNameField]
    · intro hd
      simp [identityMember, hd]

/-- Witness of C12: the Union SimpleType `u`, declared as `U`, gets the identity
member and sets `ImportEncodingXML`. -/
theorem identity_member_iff_renamed_witness :
    sampleUnion.List = false ∧ sampleUnion.Union = true ∧ sampleUnion.MemberTypes.length > 0 ∧
      seen (freshGen []) sampleUnion.Name = false ∧
      (genGoFieldName specHelpers (freshGen []).fieldNameCount sampleUnion.Name true).1
        ≠ sampleUnion.Name ∧
      (GoSimpleType specHelpers (freshGen []) sampleUnion).ImportEncodingXML = true ∧
      (GoSimpleType specHelpers (freshGen []) sampleUnion).StructAST "u"
        = some " struct \x7b\n\tXMLName\txml.Name\t`xml:\"u\"`\n\tM\tstring\n\x7d\n" :=
  ⟨rfl, rfl, by decide, by decide, by decide,
    ((identity_member_iff_renamed specHelpers (freshGen [])).2.2.2.1 sampleUnion rfl rfl
      (by decide) (by decide)).2 (by decide), by decide⟩

/-! ## Characters and segments -/

theorem toUpper_cases (c : Char) :
    c.toUpper = c ∨ (65 ≤ c.toUpper.toNat ∧ c.toUpper.toNat ≤ 90) := by
  unfold Char.toUpper
  by_cases hc : c.toNat ≥ 97 ∧ c.toNat ≤ 122
  · right
    simp only [hc, and_self, if_true]
    obtain ⟨h1, h2⟩ := hc
    generalize c.toNat = n at h1 h2
    interval_cases n <;> decide
  · left
    simp only [hc, if_false]

theorem toUpper_toUpper (c : Char) : c.toUpper.toUpper = c.toUpper := by
  rcases toUpper_cases c with h | ⟨h1, h2⟩
  · rw [h, h]
  · generalize c.toUpper = d at h1 h2
    unfold Char.toUpper
    have : ¬ (d.toNat ≥ 97 ∧ d.toNat ≤ 122) := by omega
    simp only [this, if_false]

theorem toUpper_eq_sep (c x : Char) (hx : x.toNat < 65 ∨ 90 < x.toNat) (hc : c.toUpper = x) :
    c = x := by
  rcases toUpper_cases c with h | ⟨h1, h2⟩
  · rw [← h, hc]
  · rw [hc] at h1 h2
    omega

theorem splitChars_ne_nil (sep : Char) (l : List Char) : splitChars sep l ≠ [] := by
  cases l with
  | nil => simp [splitChars]
  | cons c cs =>
    simp only [splitChars]
    split_ifs
    · simp
    · split <;> simp

theorem splitChars_mem (sep : Char) (l : List Char) :
    ∀ seg ∈ splitChars sep l, sep ∉ seg ∧ ∀ c ∈ seg, c ∈ l := by
  induction l with
  | nil => simp [splitChars]
  | cons c cs ih =>
    intro seg hseg
    simp only [splitChars] at hseg
    split_ifs at hseg with hc
    · rcases List.mem_cons.1 hseg with rfl | hmem
      · simp
      · obtain ⟨h1, h2⟩ := ih seg hmem
        exact ⟨h1, fun x hx => List.mem_cons_of_mem _ (h2 x hx)⟩
    · split at hseg
      · rename_i hnil
        exact absurd hnil (splitChars_ne_nil sep cs)
      · rename_i p ps hps
        have ihp := ih p (by rw [hps]; exact List.mem_cons_self _ _)
        rcases List.mem_cons.1 hseg with rfl | hmem
        · refine ⟨?_, ?_⟩
          · intro hin
            rcases List.mem_cons.1 hin with he | hin2
            · exact hc he.symm
            · exact ihp.1 hin2
          · intro x hx
            rcases List.mem_cons.1 hx with rfl | hx2
            · exact List.mem_cons_self _ _
            · exact List.mem_cons_of_mem _ (ihp.2 x hx2)
        · obtain ⟨h1, h2⟩ := ih seg (by rw [hps]; exact List.mem_cons_of_mem _ hmem)
          exact ⟨h1, fun x hx => List.mem_cons_of_mem _ (h2 x hx)⟩

theorem splitChars_of_not_mem (sep : Char) (l : List Char) (hl : sep ∉ l) :
    splitChars sep l = [l] := by
  induction l with
  | nil => rfl
  | cons c cs ih =>
    have hc : c ≠ sep := fun e => hl (by rw [e]; exact List.mem_cons_self _ _)
    have hcs : sep ∉ cs := fun hin => hl (List.mem_cons_of_mem _ hin)
    simp [splitChars, hc, ih hcs]

theorem splitChars_cons_of_ne (sep c : Char) (cs : List Char) (hc : c ≠ sep) :
    ∃ q qs, splitChars sep cs = q :: qs ∧ splitChars sep (c :: cs) = (c :: q) :: qs := by
  cases hs : splitChars sep cs with
  | nil => exact absurd hs (splitChars_ne_nil sep cs)
  | cons q qs => exact ⟨q, qs, rfl, by simp [splitChars, hc, hs]⟩

theorem foldl_upper_mem (h : Helpers) (l : List String) (acc : String) (c : Char)
    (hc : c ∈ (l.foldl (fun a str => a ++ h.MakeFirstUpperCase str) acc).data) :
    c ∈ acc.data ∨ ∃ s ∈ l, c ∈ (h.MakeFirstUpperCase s).data := by
  induction l generalizing acc with
  | nil => exact Or.inl hc
  | cons s l ih =>
    rcases ih _ hc with h1 | ⟨s2, hs2, h2⟩
    · rw [String.data_append, List.mem_append] at h1
      rcases h1 with h1 | h1
      · exact Or.inl h1
      · exact Or.inr ⟨s, List.mem_cons_self _ _, h1⟩
    · exact Or.inr ⟨s2, List.mem_cons_of_mem _ hs2, h2⟩

theorem foldl_upper_data (h : Helpers) (l : List String) (acc : String) :
    ∃ t, (l.foldl (fun a str => a ++ h.MakeFirstUpperCase str) acc).data = acc.data ++ t := by
  induction l generalizing acc with
  | nil => exact ⟨[], by simp⟩
  | cons s l ih =>
    obtain ⟨t, ht⟩ := ih (acc ++ h.MakeFirstUpperCase s)
    exact ⟨(h.MakeFirstUpperCase s).data ++ t, by
      rw [List.foldl_cons, ht, String.data_append, List.append_assoc]⟩

theorem upperSegments_mem (h : Helpers) (s : String) (sep c : Char)
    (hc : c ∈ (upperSegments h s sep).data) :
    ∃ seg ∈ splitChars sep s.data, c ∈ (h.MakeFirstUpperCase (String.mk seg)).data := by
  unfold upperSegments stringsSplit at hc
  rcases foldl_upper_mem h _ _ c hc with h1 | ⟨s2, hs2, h2⟩
  · simp at h1
  · obtain ⟨seg, hseg, rfl⟩ := List.mem_map.1 hs2
    exact ⟨seg, hseg, h2⟩

/-! ## The type normalizer `genGoFieldType` -/

theorem genGoFieldType_eq (h : Helpers) (name : String) :
    genGoFieldType h name
      = if name ∈ goBuiltinType then name
        else if normalizeType h name ≠ "" then normalizeType h name else "interface\x7b\x7d" :=
  rfl

theorem goBuiltinType_ne_empty : ∀ s ∈ goBuiltinType, s ≠ "" := by
  decide

theorem placeholder_not_builtin : "interface\x7b\x7d" ∉ goBuiltinType := by
  decide

/-- C14, counterexample: `_interface{}` is not a Go builtin and its
normalization is the non-empty text `interface{}`, yet `genGoFieldType` returns
`interface{}`: the placeholder text is returned although the normalization is
not the empty string. -/
theorem placeholder_text_from_nonempty_normalization :
    "_interface\x7b\x7d" ∉ goBuiltinType ∧
      normalizeType specHelpers "_interface\x7b\x7d" = "interface\x7b\x7d" ∧
      normalizeType specHelpers "_interface\x7b\x7d" ≠ "" ∧
      genGoFieldType specHelpers "_interface\x7b\x7d" = "interface\x7b\x7d" ∧
      ¬ (genGoFieldType specHelpers "_interface\x7b\x7d" = "interface\x7b\x7d" ↔
          ("_interface\x7b\x7d" ∉ goBuiltinType ∧
            normalizeType specHelpers "_interface\x7b\x7d" = "")) := by
  decide

/-- C14, amended: `genGoFieldType` never returns the empty string; it returns a
member of the Go builtin set unchanged; for a name that is not builtin it
returns `interface{}` when the normalization is empty and the normalization
itself when it is not empty; and the result is the text `interface{}` exactly
when the name is not builtin and its normalization is empty or is itself that
text. -/
theorem field_type_cases (h : Helpers) (name : String) :
    genGoFieldType h name ≠ "" ∧
    (name ∈ goBuiltinType → genGoFieldType h name = name) ∧
    (name ∉ goBuiltinType → normalizeType h name = "" →
      genGoFieldType h name = "interface\x7b\x7d") ∧
    (name ∉ goBuiltinType → normalizeType h name ≠ "" →
      genGoFieldType h name = normalizeType h name) ∧
    (genGoFieldType h name = "interface\x7b\x7d" ↔
      name ∉ goBuiltinType ∧
        (normalizeType h name = "" ∨ normalizeType h name = "interface\x7b\x7d")) := by
  rw [genGoFieldType_eq]
  by_cases hb : name ∈ goBuiltinType
  · simp only [hb, if_true, not_true_eq_false, false_implies, true_implies, true_and, and_true,
      implies_true, false_and, iff_false]
    refine ⟨goBuiltinType_ne_empty name hb, ?_⟩
    intro he
    rw [he] at hb
    exact absurd hb placeholder_not_builtin
  · by_cases hn : normalizeType h name = ""
    · simp [hb, hn]
    · simp [hb, hn]

/-- Witness of C14: the non-builtin name `foo.bar` is normalized to `FooBar`. -/
theorem field_type_cases_witness :
    "foo.bar" ∉ goBuiltinType ∧ normalizeType specHelpers "foo.bar" ≠ "" ∧
      genGoFieldType specHelpers "foo.bar" = "FooBar" :=
  ⟨by decide, by decide,
    ((field_type_cases specHelpers "foo.bar").2.2.2.1 (by decide) (by decide)).trans
      (by decide)⟩

/-! ## The name normalizer removes separators -/

theorem isDigit_digitChar (m : Nat) (hm : m < 10) : (Nat.digitChar m).isDigit = true := by
  interval_cases m <;> decide

theorem toDigitsCore_isDigit (fuel : Nat) : ∀ (n : Nat) (ds : List Char),
    (∀ c ∈ ds, c.isDigit = true) → ∀ c ∈ Nat.toDigitsCore 10 fuel n ds, c.isDigit = true := by
  induction fuel with
  | zero =>
    intro n ds hds c hc
    exact hds c hc
  | succ fuel ih =>
    intro n ds hds c hc
    have hd : ∀ x ∈ Nat.digitChar (n % 10) :: ds, x.isDigit = true := by
      intro x hx
      rcases List.mem_cons.1 hx with rfl | hx2
      · exact isDigit_digitChar _ (Nat.mod_lt _ (by decide))
      · exact hds x hx2
    simp only [Nat.toDigitsCore] at hc
    split_ifs at hc
    · exact hd c hc
    · exact ih _ _ hd c hc

theorem toString_isDigit (n : Nat) : ∀ c ∈ (toString n).data, c.isDigit = true := by
  intro c hc
  have : (toString n).data = Nat.toDigits 10 n := rfl
  rw [this, Nat.toDigits] at hc
  exact toDigitsCore_isDigit _ _ _ (by simp) c hc

theorem isDigit_not_stripped (c : Char) (hc : c.isDigit = true) : ¬ isStripped c := by
  intro hs
  rcases hs with rfl | rfl | rfl | rfl <;> exact absurd hc (by decide)

theorem upperSegments_no_sep (h : Helpers) (hM : UpperCaseAddsNoStripped h) (s : String)
    (sep : Char) (hsep : isStripped sep) : sep ∉ (upperSegments h s sep).data := by
  intro hin
  obtain ⟨seg, hseg, hc⟩ := upperSegments_mem h s sep sep hin
  exact (splitChars_mem sep s.data seg hseg).1 (hM _ _ hc hsep)

theorem upperSegments_keeps_absent (h : Helpers) (hM : UpperCaseAddsNoStripped h) (s : String)
    (sep c : Char) (hc : isStripped c) (hs : c ∉ s.data) :
    c ∉ (upperSegments h s sep).data := by
  intro hin
  obtain ⟨seg, hseg, hc2⟩ := upperSegments_mem h s sep c hin
  exact hs ((splitChars_mem sep s.data seg hseg).2 c (hM _ _ hc2 hc))

theorem normalizeName_not_stripped (h : Helpers) (hM : UpperCaseAddsNoStripped h)
    (name : String) (c : Char) (hc : c ∈ (normalizeName h name).data) : ¬ isStripped c := by
  unfold normalizeName replaceDashUnderscore at hc
  have hf := List.mem_filter.1 hc
  have h1 : ':' ∉ (upperSegments h (upperSegments h name ':') '.').data :=
    upperSegments_keeps_absent h hM _ '.' ':' (Or.inl rfl)
      (upperSegments_no_sep h hM name ':' (Or.inl rfl))
  have h2 : '.' ∉ (upperSegments h (upperSegments h name ':') '.').data :=
    upperSegments_no_sep h hM _ '.' (Or.inr (Or.inl rfl))
  have h3 : c ≠ '-' ∧ c ≠ '_' := by simpa using hf.2
  rintro (rfl | rfl | rfl | rfl)
  · exact h1 hf.1
  · exact h2 hf.1
  · exact h3.1 rfl
  · exact h3.2 rfl

/-- C19: when `MakeFirstUpperCase` only changes the case of letters, the name
returned by `genGoFieldName`, in unique mode or not, contains none of the
characters `:`, `.`, `-` and `_`; it is the normalized identifier followed by
a suffix made of decimal digits only (empty when no suffix is added). -/
theorem field_name_has_no_separators (h : Helpers) (hM : UpperCaseAddsNoStripped h)
    (cnt : String → Nat) (name : String) (unique : Bool) :
    (∀ c ∈ (genGoFieldName h cnt name unique).1.data,
      c ≠ ':' ∧ c ≠ '.' ∧ c ≠ '-' ∧ c ≠ '_') ∧
    (∃ suffix : String,
      (genGoFieldName h cnt name unique).1 = normalizeName h name ++ suffix ∧
        ∀ c ∈ suffix.data, c.isDigit = true) := by
  have hsuf : ∃ suffix : String,
      (genGoFieldName h cnt name unique).1 = normalizeName h name ++ suffix ∧
        ∀ c ∈ suffix.data, c.isDigit = true := by
    cases unique
    · exact ⟨"", by simp [genGoFieldName_plain], by simp⟩
    · rw [genGoFieldName_unique_name]
      split_ifs
      · exact ⟨"", by simp, by simp⟩
      · exact ⟨toString (cnt (normalizeName h name) + 1), rfl, toString_isDigit _⟩
  refine ⟨?_, hsuf⟩
  obtain ⟨suffix, he, hd⟩ := hsuf
  intro c hc
  rw [he, String.data_append, List.mem_append] at hc
  have hns : ¬ isStripped c := by
    rcases hc with hc | hc
    · exact normalizeName_not_stripped h hM name c hc
    · exact isDigit_not_stripped c (hd c hc)
  unfold isStripped at hns
  simp only [not_or] at hns
  exact ⟨hns.1, hns.2.1, hns.2.2.1, hns.2.2.2⟩

theorem specUpper_spec (s : String) (c : Char)
    (hc : c ∈ (specMakeFirstUpperCase s).data) (hs : isStripped c) : c ∈ s.data := by
  unfold specMakeFirstUpperCase at hc
  split at hc
  · simp at hc
  · rename_i x xs hx
    rw [hx]
    rcases List.mem_cons.1 hc with he | hin
    · have hsmall : c.toNat < 65 ∨ 90 < c.toNat := by
        rcases hs with rfl | rfl | rfl | rfl <;> decide
      have := toUpper_eq_sep x c hsmall he.symm
      rw [this]
      exact List.mem_cons_self _ _
    · exact List.mem_cons_of_mem _ hin

theorem specHelpers_upper : UpperCaseAddsNoStripped specHelpers :=
  fun s c hc hs => specUpper_spec s c hc hs

/-- Witness of C19: the third unique-mode use of `xs:foo.bar-baz_qux` with the
specification's `MakeFirstUpperCase`. -/
theorem field_name_has_no_separators_witness :
    UpperCaseAddsNoStripped specHelpers ∧
      (genGoFieldName specHelpers (fun _ => 2) "xs:foo.bar-baz_qux" true).1 = "XsFooBarbazqux3" ∧
      ∀ c ∈ (genGoFieldName specHelpers (fun _ => 2) "xs:foo.bar-baz_qux" true).1.data,
        c ≠ ':' ∧ c ≠ '.' ∧ c ≠ '-' ∧ c ≠ '_' :=
  ⟨specHelpers_upper, by decide,
    (field_name_has_no_separators specHelpers specHelpers_upper (fun _ => 2)
      "xs:foo.bar-baz_qux" true).1⟩

/-! ## Type normalizer against name normalizer -/

theorem upperSegments_single (h : Helpers) (s : String) (sep : Char) (hs : sep ∉ s.data) :
    upperSegments h s sep = h.MakeFirstUpperCase s := by
  unfold upperSegments stringsSplit
  rw [splitChars_of_not_mem sep s.data hs]
  simp

theorem upperSegments_cons (h : Helpers) (hM : h.MakeFirstUpperCase = specMakeFirstUpperCase)
    (sep x : Char) (p q : List Char) (qs : List (List Char))
    (hq : splitChars sep p = q :: qs) (hx : x ≠ sep) :
    upperSegments h (String.mk (x :: p)) sep
      = (qs.map String.mk).foldl (fun a str => a ++ h.MakeFirstUpperCase str)
          (String.mk (x.toUpper :: q)) := by
  unfold upperSegments stringsSplit
  simp [splitChars, hx, hq, hM, specMakeFirstUpperCase]

theorem toUpper_ne_sep (c x : Char) (hx : x.toNat < 65 ∨ 90 < x.toNat) (hc : c ≠ x) :
    c.toUpper ≠ x :=
  fun he => hc (toUpper_eq_sep c x hx he)

theorem normalizeType_eq_normalizeName (h : Helpers)
    (hM : h.MakeFirstUpperCase = specMakeFirstUpperCase) (c : Char) (p : List Char)
    (h1 : c ≠ '-') (h2 : c ≠ '.') (h3 : ':' ∉ c :: p) :
    normalizeType h (String.mk (c :: p)) = normalizeName h (String.mk (c :: p)) := by
  obtain ⟨q, qs, hq, -⟩ := splitChars_cons_of_ne '.' c p h2
  have hu2 : c.toUpper ≠ '.' := toUpper_ne_sep c '.' (by decide) h2
  have hu1 : c.toUpper ≠ '-' := toUpper_ne_sep c '-' (by decide) h1
  have hU1 := upperSegments_cons h hM '.' c p q qs hq h2
  have hU2 := upperSegments_cons h hM '.' c.toUpper p q qs hq hu2
  rw [toUpper_toUpper] at hU2
  have hcolon : upperSegments h (String.mk (c :: p)) ':' = String.mk (c.toUpper :: p) := by
    rw [upperSegments_single h _ ':' h3, hM]
    rfl
  obtain ⟨t, ht⟩ := foldl_upper_data h (qs.map String.mk) (String.mk (c.toUpper :: q))
  have hdata : (upperSegments h (String.mk (c :: p)) '.').data = c.toUpper :: (q ++ t) := by
    rw [hU1, ht]
    rfl
  unfold normalizeType normalizeName
  rw [hcolon, hU2, ← hU1]
  have hrem : stringsRemove '-' (upperSegments h (String.mk (c :: p)) '.')
      = String.mk (c.toUpper :: (q ++ t).filter (fun x => x ≠ '-')) := by
    unfold stringsRemove
    rw [hdata]
    simp [List.filter_cons, hu1]
  have hup : h.MakeFirstUpperCase (stringsRemove '-' (upperSegments h (String.mk (c :: p)) '.'))
      = stringsRemove '-' (upperSegments h (String.mk (c :: p)) '.') := by
    rw [hrem, hM]
    simp [specMakeFirstUpperCase, toUpper_toUpper]
  rw [hup]
  unfold stringsRemove replaceDashUnderscore
  simp only [List.filter_filter]
  congr 1
  apply List.filter_congr
  intro x _
  cases hx1 : decide (x ≠ '-') <;> cases hx2 : decide (x ≠ '_') <;> simp_all

/-- C13, counterexample: `a:b` and `-a` are not Go builtins and have non-empty
normalizations, yet `genGoFieldType` gives `A:b` and `A` where
`genGoFieldName(name, false)` gives `AB` and `a`. -/
theorem field_type_differs_from_field_name :
    "a:b" ∉ goBuiltinType ∧ normalizeType specHelpers "a:b" ≠ "" ∧
      normalizeName specHelpers "a:b" ≠ "" ∧
      genGoFieldType specHelpers "a:b" = "A:b" ∧
      (genGoFieldName specHelpers emptyCount "a:b" false).1 = "AB" ∧
      "-a" ∉ goBuiltinType ∧ normalizeType specHelpers "-a" ≠ "" ∧
      normalizeName specHelpers "-a" ≠ "" ∧
      genGoFieldType specHelpers "-a" = "A" ∧
      (genGoFieldName specHelpers emptyCount "-a" false).1 = "a" ∧
      genGoFieldType specHelpers "a:b" ≠ (genGoFieldName specHelpers emptyCount "a:b" false).1 := by
  decide

/-- C13, amended: with `MakeFirstUpperCase` as the specification describes it,
for every name that is not a Go builtin, contains no `:`, begins with a
character other than `-` and `.`, and whose normalization is non-empty,
`genGoFieldType(name)` equals `genGoFieldName(name, false)`. -/
theorem field_type_eq_field_name (h : Helpers)
    (hM : h.MakeFirstUpperCase = specMakeFirstUpperCase) (cnt : String → Nat) (name : String)
    (c : Char) (p : List Char) (hn : name.data = c :: p) (h1 : c ≠ '-') (h2 : c ≠ '.')
    (h3 : ':' ∉ name.data) (hb : name ∉ goBuiltinType) (hne : normalizeName h name ≠ "") :
    genGoFieldType h name = (genGoFieldName h cnt name false).1 := by
  have hname : name = String.mk (c :: p) := String.ext hn
  rw [hn] at h3
  subst hname
  rw [genGoFieldName_plain, genGoFieldType_eq, normalizeType_eq_normalizeName h hM c p h1 h2 h3]
  simp [hb, hne]

/-- Witness of C13 (amended): the name `foo-bar.baz`. -/
theorem field_type_eq_field_name_witness :
    specHelpers.MakeFirstUpperCase = specMakeFirstUpperCase ∧
      "foo-bar.baz" ∉ goBuiltinType ∧ normalizeName specHelpers "foo-bar.baz" = "FoobarBaz" ∧
      genGoFieldType specHelpers "foo-bar.baz"
        = (genGoFieldName specHelpers emptyCount "foo-bar.baz" false).1 :=
  ⟨rfl, by decide, by decide,
    field_type_eq_field_name specHelpers rfl emptyCount "foo-bar.baz" 'f'
      ['o', 'o', '-', 'b', 'a', 'r', '.', 'b', 'a', 'z'] rfl (by decide) (by decide)
      (by decide) (by decide) (by decide)⟩

/-! ## List simple types, the time import, and the loop of `GenGo` -/

/-- C15: the code at the failing input. For the not-yet-seen List SimpleType `L`
with empty `Base`, `genGoFieldType` applied once to the resolved base gives
`interface{}`, but the recorded body is ` []Interface{}`: the List branch
applies `genGoFieldType` a second time to that result. Likewise the base
`_item` gives `item` once and the body ` []Item`. -/
theorem list_body_normalized_twice :
    seen (freshGen []) sampleListType.Name = false ∧
      genGoFieldType specHelpers
          (specHelpers.getBaseFromSimpleType (specHelpers.trimNSPrefix sampleListType.Base) [])
        = "interface\x7b\x7d" ∧
      (GoSimpleType specHelpers (freshGen []) sampleListType).StructAST "L"
        = some " []Interface\x7b\x7d\n" ∧
      genGoFieldType specHelpers
          (specHelpers.getBaseFromSimpleType (specHelpers.trimNSPrefix sampleListType2.Base) [])
        = "item" ∧
      (GoSimpleType specHelpers (freshGen []) sampleListType2).StructAST "L2"
        = some " []Item\n" := by
  decide

/-- C16: the code at the failing input. `GoAttributeGroup` on the group `G` with
one attribute of type `time.Time` appends a member typed `time.Time` to `Field`
and leaves `ImportTime` false, so the import block `GenGo` assembles for a tree
holding only `G` is empty; `GoComplexType` on a ComplexType with the same
attribute sets `ImportTime`. -/
theorem time_member_without_import :
    (GoAttributeGroup specHelpers (freshGen []) sampleTimeAttributeGroup).Field
        = "\n// G ...\ntype G struct \x7b\n\tWhen\ttime.Time\t`xml:\"when,attr\"`\n\x7d\n" ∧
      (GoAttributeGroup specHelpers (freshGen []) sampleTimeAttributeGroup).ImportTime = false ∧
      importPackage (GenGoEmit specHelpers
          (freshGen [some (Node.attributeGroup sampleTimeAttributeGroup)])) = "" ∧
      (GoComplexType specHelpers (freshGen []) sampleTimeComplexType).ImportTime = true := by
  decide

/-- C17, counterexample: for the proto tree holding the single SimpleType `s`,
`GenGo` accumulates nothing in `Field`, while applying the emitter of its kind,
`GoSimpleType`, to the entry appends the declaration `type S string`. -/
theorem gengo_skips_simple_type :
    (GenGoEmit specHelpers (freshGen sampleAliasTree)).Field = "" ∧
      (runCalls specHelpers { freshGen sampleAliasTree with fieldNameCount := emptyCount }
          (sampleAliasTree.filterMap kindCall)).Field
        = "\n// S ...\ntype S string\n" ∧
      (GenGoEmit specHelpers (freshGen sampleAliasTree)).Field
        ≠ (runCalls specHelpers { freshGen sampleAliasTree with fieldNameCount := emptyCount }
            (sampleAliasTree.filterMap kindCall)).Field := by
  decide

theorem GenGoStep_eq (h : Helpers) (gen : CodeGenerator) (ele : Option Node) :
    GenGoStep h gen ele = (entryCall ele).elim gen (Call.run h gen) := by
  cases ele with
  | none => rfl
  | some node => cases node <;> simp [GenGoStep, funcName, callFuncByName, entryCall, Call.run]

theorem foldl_GenGoStep (h : Helpers) (tree : List (Option Node)) (gen : CodeGenerator) :
    tree.foldl (GenGoStep h) gen = runCalls h gen (tree.filterMap entryCall) := by
  induction tree generalizing gen with
  | nil => rfl
  | cons ele tree ih =>
    rw [List.foldl_cons, ih, GenGoStep_eq]
    cases hc : entryCall ele with
    | none => simp [List.filterMap_cons, hc]
    | some c => simp [List.filterMap_cons, hc, runCalls]

/-- C17, amended: the state `GenGo` reaches, and so the text it accumulates in
`Field`, is the result of resetting the counters and applying, in tree order, to
each non-nil entry that is not a SimpleType the emitter of its kind; a
SimpleType entry is skipped and leaves the state as it is. -/
theorem gengo_visits_all_but_simple_types (h : Helpers) (gen : CodeGenerator) :
    GenGoEmit h gen
        = runCalls h { gen with fieldNameCount := emptyCount }
            (gen.ProtoTree.filterMap entryCall) ∧
      (∀ (g : CodeGenerator) (v : SimpleType), GenGoStep h g (some (Node.simpleType v)) = g) ∧
      (∀ ele : Option Node,
        entryCall ele = match ele with
          | some (Node.simpleType _) => none
          | other => kindCall other) := by
  refine ⟨foldl_GenGoStep h gen.ProtoTree _, fun g v => rfl, ?_⟩
  intro ele
  cases ele with
  | none => rfl
  | some node => cases node <;> rfl

/-! ## Standalone elements and the growth of `Field` -/

/-- C18: `GoElement` on an element whose name equals its type returns the state
it was given; on an element whose name differs from its type and is not yet a
key, with `plural` as the specification describes it, it records under `v.Name`
the alias body made of the resolved type, behind `[]` exactly when the element
is plural, appends to `Field` the one declaration `type` + normalized name +
that body, and changes nothing else. -/
theorem element_alias (h : Helpers) (hp : PluralSpec h) (gen : CodeGenerator) (v : Element) :
    (v.Name = v.Type_ → GoElement h gen v = gen) ∧
    (v.Name ≠ v.Type_ → seen gen v.Name = false →
      (GoElement h gen v).StructAST
          = Function.update gen.StructAST v.Name
              (some ("\t" ++ seqType v.Plural (resolvedType h gen.ProtoTree v.Type_) ++ "\n")) ∧
        (GoElement h gen v).Field
          = gen.Field ++ (h.genFieldComment (normalizeName h v.Name) v.Doc ++ "type "
              ++ normalizeName h v.Name
              ++ ("\t" ++ seqType v.Plural (resolvedType h gen.ProtoTree v.Type_) ++ "\n")) ∧
        (GoElement h gen v).ImportTime = gen.ImportTime ∧
        (GoElement h gen v).ImportEncodingXML = gen.ImportEncodingXML ∧
        (GoElement h gen v).fieldNameCount = gen.fieldNameCount) ∧
    (∀ ty : String, seqType true ty = "[]" ++ ty ∧ seqType false ty = ty) := by
  refine ⟨?_, ?_, fun ty => ⟨rfl, rfl⟩⟩
  · intro he
    unfold GoElement
    split_ifs <;> rfl
  · intro hne hs
    have hbody : "\t" ++ h.plural v.Plural ++ resolvedType h gen.ProtoTree v.Type_ ++ "\n"
        = "\t" ++ seqType v.Plural (resolvedType h gen.ProtoTree v.Type_) ++ "\n" := by
      rw [hp]
      cases v.Plural <;> simp [seqType, String.append_assoc, tab_seq]
    simp only [GoElement, hs, hne, appendDecl, setStructAST, genGoFieldName_plain,
      Bool.false_eq_true, if_false]
    rw [← hbody]
    simp [resolvedType]

/-- Witness of C18: the plural element `items` of type `string` on a fresh generator. -/
theorem element_alias_witness :
    PluralSpec specHelpers ∧ samplePluralElement.Name ≠ samplePluralElement.Type_ ∧
      seen (freshGen []) samplePluralElement.Name = false ∧
      (GoElement specHelpers (freshGen []) samplePluralElement).Field
        = (freshGen []).Field ++ (specHelpers.genFieldComment
              (normalizeName specHelpers samplePluralElement.Name) samplePluralElement.Doc
            ++ "type " ++ normalizeName specHelpers samplePluralElement.Name
            ++ ("\t" ++ seqType samplePluralElement.Plural
                (resolvedType specHelpers (freshGen []).ProtoTree samplePluralElement.Type_)
              ++ "\n")) :=
  ⟨specHelpers_plural, by decide, by decide,
    ((element_alias specHelpers specHelpers_plural (freshGen []) samplePluralElement).2.1
      (by decide) (by decide)).2.1⟩

theorem run_appends_decl (h : Helpers) (gen : CodeGenerator) (c : Call) :
    c.run h gen = gen ∨
      ∃ body, (c.run h gen).StructAST c.name = some body ∧
        (c.run h gen).Field
          = gen.Field ++ (h.genFieldComment (c.declName h gen) c.doc
              ++ ("type " ++ c.declName h gen ++ body)) := by
  by_cases hs : seen gen c.name = true
  · exact Or.inl (run_of_seen h gen c hs)
  · simp only [Bool.not_eq_true] at hs
    cases c <;> simp only [Call.name] at hs <;>
      simp only [Call.run, Call.name, Call.doc, Call.declName, GoSimpleType, GoComplexType,
        GoGroup, GoAttributeGroup, GoElement, GoAttribute, hs] <;>
      split_ifs <;>
      first
        | exact Or.inl rfl
        | exact Or.inr ⟨_, Function.update_same _ _ _,
            by simp [appendDecl, setStructAST, String.append_assoc]⟩

theorem run_field_grows (h : Helpers) (gen : CodeGenerator) (c : Call) :
    gen.Field.data <+: (c.run h gen).Field.data := by
  rcases run_appends_decl h gen c with hr | ⟨body, -, hf⟩
  · rw [hr]
  · rw [hf, String.data_append]
    exact List.prefix_append _ _

/-- C20: an emitter call leaves the `Field` it was given as a prefix of the new
`Field`; it either changes nothing at all or appends the comment followed by
`type ` + `D` + `B`, where `D` is the declaration name the emitter chose for the
node and `B` is the body found in `StructAST[v.Name]` after the call; and over
any sequence of calls `Field` only grows at its end. -/
theorem field_grows_by_declarations (h : Helpers) (gen : CodeGenerator) :
    (∀ c : Call, gen.Field.data <+: (c.run h gen).Field.data ∧
      (c.run h gen = gen ∨
        ∃ body, (c.run h gen).StructAST c.name = some body ∧
          (c.run h gen).Field
            = gen.Field ++ (h.genFieldComment (c.declName h gen) c.doc
                ++ ("type " ++ c.declName h gen ++ body)))) ∧
    (∀ cs ds : List Call,
      (runCalls h gen cs).Field.data <+: (runCalls h gen (cs ++ ds)).Field.data) := by
  refine ⟨fun c => ⟨run_field_grows h gen c, run_appends_decl h gen c⟩, ?_⟩
  intro cs ds
  rw [runCalls_append]
  generalize runCalls h gen cs = g
  induction ds generalizing g with
  | nil => exact List.prefix_refl _
  | cons d ds ih =>
    rw [runCalls_cons]
    exact (run_field_grows h g d).trans (ih _)

end Xgen
